import Mathlib

set_option autoImplicit false

/-!
Verification model of `nautilus_trader/adapters/polymarket/websocket/client.py`
(`PolymarketWebSocketClient`): a reference-counted subscription coordinator that
multiplexes subscription keys over a pool of capacity-bounded websocket slots.

Python dicts are modelled as insertion-ordered association lists (`dictGet`
returns the first binding, `dictSet` updates the first binding in place or
appends a fresh one at the end, `dictPop` removes the first binding), matching
CPython dict semantics for the key types used here.  Python `list.remove` is
`listRemove` (removes the first occurrence; call sites in the source guard
membership first).

The transport is modelled as ideal and sequential: `WebSocketClient.connect`
always succeeds and yields an active handle (`true` in the `clients` map;
`false` models a `None` entry), `send_text` succeeds whenever a live handle
exists, and calls run to completion one at a time, so the `_is_connecting`
busy-wait loop never observes `True` between calls.  Wire sends and log
warnings/errors are returned as an explicit event list; debug/info logging is
omitted.
-/

namespace PolymarketWs

/-! ### Association-list dictionaries (Python `dict`) -/

def dictGet {κ α : Type} [DecidableEq κ] : List (κ × α) → κ → Option α
  | [], _ => none
  | (k0, v) :: rest, k => if k0 = k then some v else dictGet rest k

def dictSet {κ α : Type} [DecidableEq κ] : List (κ × α) → κ → α → List (κ × α)
  | [], k, v => [(k, v)]
  | (k0, v0) :: rest, k, v =>
      if k0 = k then (k, v) :: rest else (k0, v0) :: dictSet rest k v

def dictPop {κ α : Type} [DecidableEq κ] : List (κ × α) → κ → List (κ × α)
  | [], _ => []
  | (k0, v0) :: rest, k => if k0 = k then rest else (k0, v0) :: dictPop rest k

def listRemove {α : Type} [DecidableEq α] : List α → α → List α
  | [], _ => []
  | x :: rest, a => if x = a then rest else x :: listRemove rest a

/-- Number of occurrences of `a` in a list. -/
def occ {α : Type} [DecidableEq α] (a : α) : List α → Nat
  | [] => 0
  | x :: rest => (if x = a then 1 else 0) + occ a rest

/-- Total occurrences of key `k` across all slots' key lists. -/
def sumOcc (k : String) : List (Nat × List String) → Nat
  | [] => 0
  | (_, subs) :: rest => occ k subs + sumOcc k rest

/-- Keys of an association list, in order. -/
def keysOf {κ α : Type} (l : List (κ × α)) : List κ := l.map Prod.fst

/-! ### Data model (from the source) -/

inductive PolymarketWebSocketChannel
  | MARKET
  | USER
deriving DecidableEq

/-- Opaque credentials value (`PolymarketWebSocketAuth`); the coordinator never
inspects it, only embeds it in user-channel messages. -/
structure PolymarketWebSocketAuth where
  apiKey : String
deriving DecidableEq

/-- A JSON field value as used by the four control-message builders. -/
inductive JsonVal
  | str (s : String)
  | strList (l : List String)
  | authVal (a : Option PolymarketWebSocketAuth)
deriving DecidableEq

/-- A control message: an ordered JSON object. -/
abbrev WsMsg := List (String × JsonVal)

/-- Observable effects of a call: wire sends and warning/error log lines. -/
inductive WsEvent
  | sent (clientId : Nat) (msg : WsMsg)
  | logWarning (text : String)
  | logError (text : String)
deriving DecidableEq

/-- Construction-time configuration of `PolymarketWebSocketClient`. -/
structure WsConfig where
  channel : PolymarketWebSocketChannel
  auth : Option PolymarketWebSocketAuth
  maxSubscriptionsPerConnection : Nat
deriving DecidableEq

/-- The mutable coordinator state (`__init__` fields).  A `clients` value of
`true` is a live, active `WebSocketClient` handle; `false` is a `None` entry. -/
structure WsState where
  subscriptions : List String
  subscriptionCounts : List (String × Nat)
  clients : List (Nat × Bool)
  clientSubs : List (Nat × List String)
  isConnecting : List (Nat × Bool)
  nextClientId : Nat
deriving DecidableEq

def initState : WsState :=
  { subscriptions := []
    subscriptionCounts := []
    clients := []
    clientSubs := []
    isConnecting := []
    nextClientId := 0 }

/-- Reference count of a key in a counts dictionary (`.get(subscription, 0)`). -/
def countD (d : List (String × Nat)) (k : String) : Nat := (dictGet d k).getD 0

def countOf (st : WsState) (k : String) : Nat := countD st.subscriptionCounts k

/-! ### Control-message builders (source lines 436-472) -/

def createSubscribeMarketChannelMsg (assets : List String) : WsMsg :=
  [("type", JsonVal.str "market"), ("assets_ids", JsonVal.strList assets)]

def createSubscribeUserChannelMsg (cfg : WsConfig) (markets : List String) : WsMsg :=
  [("auth", JsonVal.authVal cfg.auth), ("type", JsonVal.str "user"),
   ("markets", JsonVal.strList markets)]

def createDynamicSubscribeMsg (cfg : WsConfig) (subs : List String) : WsMsg :=
  if cfg.channel = PolymarketWebSocketChannel.USER then
    [("auth", JsonVal.authVal cfg.auth), ("markets", JsonVal.strList subs),
     ("operation", JsonVal.str "subscribe")]
  else
    [("assets_ids", JsonVal.strList subs), ("operation", JsonVal.str "subscribe")]

def createDynamicUnsubscribeMsg (cfg : WsConfig) (subs : List String) : WsMsg :=
  if cfg.channel = PolymarketWebSocketChannel.USER then
    [("markets", JsonVal.strList subs), ("operation", JsonVal.str "unsubscribe")]
  else
    [("assets_ids", JsonVal.strList subs), ("operation", JsonVal.str "unsubscribe")]

/-! ### Spec-side message templates, written from the spec's words (section 4.4)
for comparison against the builders above -/

def specBulkMarketMsg (keys : List String) : WsMsg :=
  [("type", JsonVal.str "market"), ("assets_ids", JsonVal.strList keys)]

def specBulkUserMsg (credentials : Option PolymarketWebSocketAuth)
    (keys : List String) : WsMsg :=
  [("auth", JsonVal.authVal credentials), ("type", JsonVal.str "user"),
   ("markets", JsonVal.strList keys)]

def specDynSubscribeMarketMsg (key : String) : WsMsg :=
  [("assets_ids", JsonVal.strList [key]), ("operation", JsonVal.str "subscribe")]

def specDynSubscribeUserMsg (credentials : Option PolymarketWebSocketAuth)
    (key : String) : WsMsg :=
  [("auth", JsonVal.authVal credentials), ("markets", JsonVal.strList [key]),
   ("operation", JsonVal.str "subscribe")]

def specDynUnsubscribeMarketMsg (key : String) : WsMsg :=
  [("assets_ids", JsonVal.strList [key]), ("operation", JsonVal.str "unsubscribe")]

def specDynUnsubscribeUserMsg (key : String) : WsMsg :=
  [("markets", JsonVal.strList [key]), ("operation", JsonVal.str "unsubscribe")]

/-! ### Pool lookups (source lines 165-182) -/

/-- Loop body of `_get_client_for_subscription`: first slot whose key list
contains the subscription (`-1`, i.e. not found, becomes `none`). -/
def firstContaining : List (Nat × List String) → String → Option Nat
  | [], _ => none
  | (clientId, subs) :: rest, s =>
      if s ∈ subs then some clientId else firstContaining rest s

def getClientForSubscription (st : WsState) (subscription : String) : Option Nat :=
  firstContaining st.clientSubs subscription

/-- Loop body of `_get_client_id_for_new_subscription`: first slot with spare
capacity. -/
def firstFit (cap : Nat) : List (Nat × List String) → Option Nat
  | [] => none
  | (clientId, subs) :: rest =>
      if subs.length < cap then some clientId else firstFit cap rest

/-- Source `_get_client_id_for_new_subscription`: reuse the first slot with
spare capacity, else create a fresh slot under `_next_client_id`. -/
def getClientIdForNewSubscription (cfg : WsConfig) (st : WsState) : Nat × WsState :=
  match firstFit cfg.maxSubscriptionsPerConnection st.clientSubs with
  | some clientId => (clientId, st)
  | none =>
      let clientId := st.nextClientId
      (clientId,
        { st with
          nextClientId := clientId + 1
          clients := dictSet st.clients clientId false
          clientSubs := dictSet st.clientSubs clientId []
          isConnecting := dictSet st.isConnecting clientId false })

/-! ### Transport-facing helpers (source lines 347-485) -/

/-- Source `_send`: no-op with a logged error when the slot has no live
handle; otherwise the frame goes out on the wire. -/
def sendMsg (st : WsState) (clientId : Nat) (msg : WsMsg) : WsState × List WsEvent :=
  match dictGet st.clients clientId with
  | some true => (st, [WsEvent.sent clientId msg])
  | _ => (st, [WsEvent.logError "Cannot send message: not connected"])

/-- Source `_subscribe_all`: bulk subscribe covering the slot's current keys,
shaped by the channel kind. -/
def subscribeAll (cfg : WsConfig) (st : WsState) (clientId : Nat) :
    WsState × List WsEvent :=
  let subs := (dictGet st.clientSubs clientId).getD []
  let msg :=
    if cfg.channel = PolymarketWebSocketChannel.USER then
      createSubscribeUserChannelMsg cfg subs
    else
      createSubscribeMarketChannelMsg subs
  sendMsg st clientId msg

/-- Source `_connect_client` with the ideal transport: refuses an empty slot,
sets the connecting flag, installs a live handle, sends the bulk subscribe,
clears the flag. -/
def connectClient (cfg : WsConfig) (st : WsState) (clientId : Nat) :
    WsState × List WsEvent :=
  let subs := (dictGet st.clientSubs clientId).getD []
  if subs = [] then
    (st, [WsEvent.logError "Cannot connect: no subscriptions"])
  else
    let st1 := { st with isConnecting := dictSet st.isConnecting clientId true }
    let st2 := { st1 with clients := dictSet st1.clients clientId true }
    let sent := subscribeAll cfg st2 clientId
    ({ sent.1 with isConnecting := dictSet sent.1.isConnecting clientId false },
      sent.2)

/-- Source `_disconnect_client`: no-op on a `None` entry, else the handle is
released (`None` is written back). -/
def disconnectClient (st : WsState) (clientId : Nat) : WsState :=
  match dictGet st.clients clientId with
  | some true => { st with clients := dictSet st.clients clientId false }
  | _ => st

/-! ### The five coordinator operations -/

/-- Shared reference-count bump (`count = counts.get(sub, 0);
counts[sub] = count + 1`), returning the previous count; first step of both
`add_subscription` and `subscribe`. -/
def bumpCount (st : WsState) (subscription : String) : Nat × WsState :=
  let count := (dictGet st.subscriptionCounts subscription).getD 0
  (count,
    { st with
      subscriptionCounts := dictSet st.subscriptionCounts subscription (count + 1) })

/-- Shared 0-to-1 registration (source lines 203-206 and 244-246): append the
key to the registry list and to the slot chosen by
`_get_client_id_for_new_subscription`, returning that slot id. -/
def registerNewKey (cfg : WsConfig) (st : WsState) (subscription : String) :
    Nat × WsState :=
  let st2 := { st with subscriptions := st.subscriptions ++ [subscription] }
  let assigned := getClientIdForNewSubscription cfg st2
  let clientId := assigned.1
  let st3 := assigned.2
  (clientId,
    { st3 with
      clientSubs :=
        dictSet st3.clientSubs clientId
          (((dictGet st3.clientSubs clientId).getD []) ++ [subscription]) })

/-- Source `add_subscription` (offline path): bump the reference count; on the
0 to 1 transition register the key and assign it to a slot. -/
def addSubscription (cfg : WsConfig) (st : WsState) (subscription : String) : WsState :=
  let b := bumpCount st subscription
  if 0 < b.1 then b.2
  else (registerNewKey cfg b.2 subscription).2

/-- Source `subscribe` (online path), sequentialised: with the ideal transport
the `_is_connecting` flag is always false between calls, so the busy-wait loop
runs zero times and `waited_for_connection` reads the flag directly. -/
def subscribe (cfg : WsConfig) (st : WsState) (subscription : String) :
    WsState × List WsEvent :=
  let b := bumpCount st subscription
  let st1 := b.2
  if 0 < b.1 then
    match getClientForSubscription st1 subscription with
    | some clientId =>
        if dictGet st1.clients clientId ≠ some true ∧
            (dictGet st1.isConnecting clientId).getD false = false then
          connectClient cfg st1 clientId
        else
          (st1, [])
    | none => (st1, [])
  else
    let r := registerNewKey cfg st1 subscription
    let clientId := r.1
    let st4 := r.2
    let waitedForConnection := (dictGet st4.isConnecting clientId).getD false
    if dictGet st4.clients clientId ≠ some true then
      connectClient cfg st4 clientId
    else if waitedForConnection then
      (st4, [])
    else
      sendMsg st4 clientId (createDynamicSubscribeMsg cfg [subscription])

/-- Source `unsubscribe`: a zero count only logs a warning; otherwise the count
drops, and on the 1 to 0 transition the key is deregistered, a dynamic
unsubscribe goes out, and an emptied slot is released. -/
def unsubscribe (cfg : WsConfig) (st : WsState) (subscription : String) :
    WsState × List WsEvent :=
  let count := (dictGet st.subscriptionCounts subscription).getD 0
  if count = 0 then
    (st, [WsEvent.logWarning ("Cannot unsubscribe from " ++ subscription ++ ": not subscribed")])
  else if 1 < count then
    ({ st with subscriptionCounts := dictSet st.subscriptionCounts subscription (count - 1) }, [])
  else
    let st1 := { st with subscriptionCounts := dictPop st.subscriptionCounts subscription }
    if subscription ∈ st1.subscriptions then
      match getClientForSubscription st1 subscription with
      | none =>
          ({ st1 with subscriptions := listRemove st1.subscriptions subscription },
            [WsEvent.logWarning ("Cannot find client for subscription " ++ subscription)])
      | some clientId =>
          let st2 := { st1 with subscriptions := listRemove st1.subscriptions subscription }
          let st3 :=
            if (dictGet st2.clientSubs clientId).isSome ∧
                subscription ∈ (dictGet st2.clientSubs clientId).getD [] then
              { st2 with
                clientSubs :=
                  dictSet st2.clientSubs clientId
                    (listRemove ((dictGet st2.clientSubs clientId).getD []) subscription) }
            else st2
          let shouldDisconnect :=
            (dictGet st3.clientSubs clientId).isSome ∧
              ((dictGet st3.clientSubs clientId).getD []) = []
          let sent := sendMsg st3 clientId (createDynamicUnsubscribeMsg cfg [subscription])
          if shouldDisconnect then
            (disconnectClient sent.1 clientId, sent.2)
          else
            sent
    else
      (st1,
        [WsEvent.logWarning
          ("Cannot find subscription " ++ subscription ++ " in subscriptions list")])

/-- Loop of source `connect`: open every slot whose key list is non-empty. -/
def connectLoop (cfg : WsConfig) : WsState → List (Nat × List String) → WsState × List WsEvent
  | st, [] => (st, [])
  | st, (clientId, subs) :: rest =>
      if subs = [] then connectLoop cfg st rest
      else
        let c := connectClient cfg st clientId
        let r := connectLoop cfg c.1 rest
        (r.1, c.2 ++ r.2)

/-- Source `connect`: error out loudly with no subscriptions, else open every
non-empty slot. -/
def connectAll (cfg : WsConfig) (st : WsState) : WsState × List WsEvent :=
  if st.subscriptions = [] then
    (st, [WsEvent.logError "Cannot connect: no subscriptions"])
  else
    connectLoop cfg st st.clientSubs

/-- Source `market_subscriptions` (legacy accessor). -/
def marketSubscriptions (cfg : WsConfig) (st : WsState) : List String :=
  if cfg.channel = PolymarketWebSocketChannel.USER then st.subscriptions else []

/-- Source `asset_subscriptions` (legacy accessor). -/
def assetSubscriptions (cfg : WsConfig) (st : WsState) : List String :=
  if cfg.channel = PolymarketWebSocketChannel.MARKET then st.subscriptions else []

/-! ### Call sequences -/

/-- One coordinator call, as named in the claims. -/
inductive WsOp
  | add (subscription : String)
  | sub (subscription : String)
  | unsub (subscription : String)
deriving DecidableEq

def applyOp (cfg : WsConfig) (st : WsState) : WsOp → WsState
  | WsOp.add s => addSubscription cfg st s
  | WsOp.sub s => (subscribe cfg st s).1
  | WsOp.unsub s => (unsubscribe cfg st s).1

def runOps (cfg : WsConfig) (st : WsState) : List WsOp → WsState
  | [] => st
  | op :: rest => runOps cfg (applyOp cfg st op) rest

/-- A call on one fixed key: `subscribe` or `unsubscribe`. -/
inductive KOp
  | sub
  | unsub
deriving DecidableEq

def runKey (cfg : WsConfig) (k : String) : WsState → List KOp → WsState × List WsEvent
  | st, [] => (st, [])
  | st, op :: rest =>
      let step :=
        match op with
        | KOp.sub => subscribe cfg st k
        | KOp.unsub => unsubscribe cfg st k
      let r := runKey cfg k step.1 rest
      (r.1, step.2 ++ r.2)

def numSubs : List KOp → Nat
  | [] => 0
  | KOp.sub :: rest => numSubs rest + 1
  | KOp.unsub :: rest => numSubs rest

def numUnsubs : List KOp → Nat
  | [] => 0
  | KOp.sub :: rest => numUnsubs rest
  | KOp.unsub :: rest => numUnsubs rest + 1

/-- Well-formedness of a single-key call sequence starting from `c` live
references: no `unsubscribe` is issued while the count is zero. -/
def wfFrom (c : Nat) : List KOp → Prop
  | [] => True
  | KOp.sub :: rest => wfFrom (c + 1) rest
  | KOp.unsub :: rest => 0 < c ∧ wfFrom (c - 1) rest

/-- Reference count after a single-key call sequence, starting from count `c`:
subscribe adds one, unsubscribe removes one but is a no-op at zero (Nat
subtraction matches that). -/
def clampNetFrom (c : Nat) : List KOp → Nat
  | [] => c
  | KOp.sub :: rest => clampNetFrom (c + 1) rest
  | KOp.unsub :: rest => clampNetFrom (c - 1) rest

/-! ### Wire-message accounting -/

def isSentEv : WsEvent → Bool
  | WsEvent.sent _ _ => true
  | _ => false

/-- Does a control message cover key `k` (in any string-list field)? -/
def msgMentionsKey (k : String) (m : WsMsg) : Bool :=
  m.any fun p =>
    match p.2 with
    | JsonVal.strList l => l.contains k
    | _ => false

def isUnsubscribeMsg (m : WsMsg) : Bool :=
  m.any fun p =>
    match p.2 with
    | JsonVal.str s => p.1 == "operation" && s == "unsubscribe"
    | _ => false

/-- Wire subscribe messages (bulk or dynamic) covering key `k`. -/
def wireSubCount (k : String) (evs : List WsEvent) : Nat :=
  evs.countP fun e =>
    match e with
    | WsEvent.sent _ m => msgMentionsKey k m && !isUnsubscribeMsg m
    | _ => false

/-- Wire unsubscribe messages covering key `k`. -/
def wireUnsubCount (k : String) (evs : List WsEvent) : Nat :=
  evs.countP fun e =>
    match e with
    | WsEvent.sent _ m => msgMentionsKey k m && isUnsubscribeMsg m
    | _ => false

/-! ### Invariants and single-key state shapes -/

/-- Bookkeeping fields governed by the coordinator lock (everything except the
transport handles and connecting flags). -/
def core (st : WsState) :
    List String × List (String × Nat) × List (Nat × List String) × Nat :=
  (st.subscriptions, st.subscriptionCounts, st.clientSubs, st.nextClientId)

/-- Structural invariant of reachable coordinator states: count keys are
unique, slot ids are strictly increasing and below `nextClientId`, and each
key's occurrences in the registry list and across slots match its count. -/
def StInv (st : WsState) : Prop :=
  (keysOf st.subscriptionCounts).Nodup ∧
  (keysOf st.clientSubs).Pairwise (· < ·) ∧
  (∀ c ∈ keysOf st.clientSubs, c < st.nextClientId) ∧
  (∀ k, occ k st.subscriptions = if 0 < countOf st k then 1 else 0) ∧
  (∀ k, sumOcc k st.clientSubs = if 0 < countOf st k then 1 else 0)

/-- Capacity invariant: no slot holds more keys than configured. -/
def CapInv (cap : Nat) (st : WsState) : Prop :=
  ∀ p ∈ st.clientSubs, p.2.length ≤ cap

/-- Single-key shape: no live references; `ids` are the already-created slot
ids, all empty and disconnected. -/
def idleState (ids : List Nat) (next : Nat) : WsState :=
  { subscriptions := []
    subscriptionCounts := []
    clients := ids.map fun i => (i, false)
    clientSubs := ids.map fun i => (i, [])
    isConnecting := ids.map fun i => (i, false)
    nextClientId := next }

/-- Single-key shape: key `k` held `n` times on the live slot `j`. -/
def activeState (k : String) (n : Nat) (j : Nat) (ids : List Nat) (next : Nat) :
    WsState :=
  { subscriptions := [k]
    subscriptionCounts := [(k, n)]
    clients := ids.map fun i => (i, if i = j then true else false)
    clientSubs := ids.map fun i => (i, if i = j then [k] else [])
    isConnecting := ids.map fun i => (i, false)
    nextClientId := next }

/-- Reachable shapes of the single-key runs of claim C2. -/
def KShape (k : String) (st : WsState) : Prop :=
  (∃ ids next, ids.Nodup ∧ (∀ i ∈ ids, i < next) ∧ st = idleState ids next) ∨
  (∃ n j ids next, 1 ≤ n ∧ j ∈ ids ∧ ids.Nodup ∧ (∀ i ∈ ids, i < next) ∧
    st = activeState k n j ids next)

/-- The channel-appropriate bulk subscribe message, as `_subscribe_all` builds it. -/
def bulkMsgFor (cfg : WsConfig) (subs : List String) : WsMsg :=
  if cfg.channel = PolymarketWebSocketChannel.USER then
    createSubscribeUserChannelMsg cfg subs
  else
    createSubscribeMarketChannelMsg subs

/-- Default-configuration market-channel coordinator, for concrete runs. -/
def cfgM : WsConfig :=
  { channel := PolymarketWebSocketChannel.MARKET
    auth := none
    maxSubscriptionsPerConnection := 200 }

/-- Market-channel coordinator configured with per-slot capacity 0. -/
def cfgM0 : WsConfig :=
  { channel := PolymarketWebSocketChannel.MARKET
    auth := none
    maxSubscriptionsPerConnection := 0 }

end PolymarketWs


namespace PolymarketWs

/-! ### Generic lemmas about the dictionary model -/

section DictLemmas

variable {κ α : Type} [DecidableEq κ]

@[simp] theorem dictGet_nil (k : κ) : dictGet ([] : List (κ × α)) k = none := rfl

@[simp] theorem dictGet_cons (k0 : κ) (v : α) (rest : List (κ × α)) (k : κ) :
    dictGet ((k0, v) :: rest) k = if k0 = k then some v else dictGet rest k := rfl

theorem dictGet_eq_none_iff (l : List (κ × α)) (k : κ) :
    dictGet l k = none ↔ k ∉ keysOf l := by
  induction l with
  | nil => simp [keysOf]
  | cons p rest ih =>
    obtain ⟨k0, v⟩ := p
    by_cases h : k0 = k
    · subst h
      simp [keysOf]
    · simp only [dictGet_cons, if_neg h, ih, keysOf, List.map_cons, List.mem_cons]
      constructor
      · intro hk hc
        rcases hc with hc | hc
        · exact h hc.symm
        · exact hk hc
      · intro hk hc
        exact hk (Or.inr hc)

theorem dictGet_isSome_iff (l : List (κ × α)) (k : κ) :
    (dictGet l k).isSome = true ↔ k ∈ keysOf l := by
  rw [← Decidable.not_iff_not, Option.not_isSome_iff_eq_none, dictGet_eq_none_iff]

theorem dictGet_dictSet_self (l : List (κ × α)) (k : κ) (v : α) :
    dictGet (dictSet l k v) k = some v := by
  induction l with
  | nil => simp [dictSet]
  | cons p rest ih =>
    obtain ⟨k0, v0⟩ := p
    by_cases h : k0 = k <;> simp [dictSet, h, ih]

theorem dictGet_dictSet_ne (l : List (κ × α)) (k k' : κ) (v : α) (h : k' ≠ k) :
    dictGet (dictSet l k v) k' = dictGet l k' := by
  induction l with
  | nil => simp [dictSet, Ne.symm h]
  | cons p rest ih =>
    obtain ⟨k0, v0⟩ := p
    by_cases h0 : k0 = k
    · subst h0
      simp [dictSet, Ne.symm h]
    · simp only [dictSet, if_neg h0, dictGet_cons, ih]

theorem dictSet_fresh (l : List (κ × α)) (k : κ) (v : α) (h : k ∉ keysOf l) :
    dictSet l k v = l ++ [(k, v)] := by
  induction l with
  | nil => simp [dictSet]
  | cons p rest ih =>
    obtain ⟨k0, v0⟩ := p
    simp only [keysOf, List.map_cons, List.mem_cons] at h
    push_neg at h
    have h1 : k0 ≠ k := Ne.symm h.1
    have h2 : k ∉ keysOf rest := h.2
    simp [dictSet, h1, ih h2]

theorem keysOf_dictSet_mem (l : List (κ × α)) (k : κ) (v : α) (h : k ∈ keysOf l) :
    keysOf (dictSet l k v) = keysOf l := by
  induction l with
  | nil => simp [keysOf] at h
  | cons p rest ih =>
    obtain ⟨k0, v0⟩ := p
    by_cases h0 : k0 = k
    · subst h0
      simp [dictSet, keysOf]
    · have h2 : k ∈ keysOf rest := by
        simp only [keysOf, List.map_cons, List.mem_cons] at h
        rcases h with h | h
        · exact absurd h.symm h0
        · exact h
      have h3 := ih h2
      simp only [keysOf] at h3
      simp [dictSet, h0, keysOf, h3]

theorem keysOf_append (l1 l2 : List (κ × α)) :
    keysOf (l1 ++ l2) = keysOf l1 ++ keysOf l2 := by
  simp [keysOf]

theorem keysOf_dictSet_fresh (l : List (κ × α)) (k : κ) (v : α) (h : k ∉ keysOf l) :
    keysOf (dictSet l k v) = keysOf l ++ [k] := by
  rw [dictSet_fresh l k v h, keysOf_append]
  rfl

theorem nodup_keysOf_dictSet (l : List (κ × α)) (k : κ) (v : α)
    (h : (keysOf l).Nodup) : (keysOf (dictSet l k v)).Nodup := by
  by_cases hm : k ∈ keysOf l
  · rw [keysOf_dictSet_mem l k v hm]; exact h
  · rw [keysOf_dictSet_fresh l k v hm]
    simp [List.nodup_append, h, hm]

theorem dict_decomp (l : List (κ × α)) (k : κ) (v : α) (h : dictGet l k = some v) :
    ∃ l1 l2, l = l1 ++ (k, v) :: l2 ∧ (∀ p ∈ l1, p.1 ≠ k) ∧
      (∀ w, dictSet l k w = l1 ++ (k, w) :: l2) ∧ dictPop l k = l1 ++ l2 := by
  induction l with
  | nil => simp at h
  | cons p rest ih =>
    obtain ⟨k0, v0⟩ := p
    by_cases h0 : k0 = k
    · subst h0
      rw [dictGet_cons, if_pos rfl] at h
      obtain rfl : v0 = v := Option.some.injEq _ _ ▸ h
      refine ⟨[], rest, by simp, by simp, ?_, ?_⟩
      · intro w
        simp [dictSet]
      · simp [dictPop]
    · rw [dictGet_cons, if_neg h0] at h
      obtain ⟨l1, l2, heq, hne, hset, hpop⟩ := ih h
      refine ⟨(k0, v0) :: l1, l2, by simp [heq], ?_, ?_, ?_⟩
      · intro p hp
        rcases List.mem_cons.mp hp with hp | hp
        · rw [hp]; exact h0
        · exact hne p hp
      · intro w
        simp [dictSet, h0, hset w]
      · simp [dictPop, h0, hpop]

theorem dictGet_dictPop_ne (l : List (κ × α)) (k k' : κ) (h : k' ≠ k) :
    dictGet (dictPop l k) k' = dictGet l k' := by
  induction l with
  | nil => simp [dictPop]
  | cons p rest ih =>
    obtain ⟨k0, v0⟩ := p
    by_cases h0 : k0 = k
    · subst h0
      simp [dictPop, Ne.symm h]
    · simp [dictPop, h0, ih]

theorem dictPop_sublist (l : List (κ × α)) (k : κ) : (dictPop l k).Sublist l := by
  induction l with
  | nil => simp [dictPop]
  | cons p rest ih =>
    obtain ⟨k0, v0⟩ := p
    by_cases h0 : k0 = k
    · simp only [dictPop, if_pos h0]
      exact List.sublist_cons_self (k0, v0) rest
    · simp only [dictPop, if_neg h0]
      exact List.Sublist.cons₂ (k0, v0) ih

theorem nodup_keysOf_dictPop (l : List (κ × α)) (k : κ)
    (h : (keysOf l).Nodup) : (keysOf (dictPop l k)).Nodup :=
  List.Nodup.sublist ((dictPop_sublist l k).map Prod.fst) h

theorem dictGet_dictPop_self (l : List (κ × α)) (k : κ)
    (h : (keysOf l).Nodup) : dictGet (dictPop l k) k = none := by
  induction l with
  | nil => simp [dictPop]
  | cons p rest ih =>
    obtain ⟨k0, v0⟩ := p
    simp only [keysOf, List.map_cons, List.nodup_cons] at h
    by_cases h0 : k0 = k
    · subst h0
      simp only [dictPop, if_pos rfl]
      rw [dictGet_eq_none_iff]
      exact h.1
    · simp only [dictPop, if_neg h0, dictGet_cons, if_neg h0]
      exact ih h.2

end DictLemmas

/-! ### Lemmas about occurrence counting -/

section OccLemmas

variable {α : Type} [DecidableEq α]

@[simp] theorem occ_nil (a : α) : occ a ([] : List α) = 0 := rfl

@[simp] theorem occ_cons (a x : α) (l : List α) :
    occ a (x :: l) = (if x = a then 1 else 0) + occ a l := rfl

theorem occ_append (a : α) (l1 l2 : List α) :
    occ a (l1 ++ l2) = occ a l1 + occ a l2 := by
  induction l1 with
  | nil => simp
  | cons x rest ih =>
    simp only [List.cons_append, occ_cons, ih]
    omega

theorem occ_eq_zero_iff (a : α) (l : List α) : occ a l = 0 ↔ a ∉ l := by
  induction l with
  | nil => simp
  | cons x rest ih =>
    by_cases h : x = a
    · subst h
      simp
    · simp only [occ_cons, if_neg h, Nat.zero_add, ih, List.mem_cons]
      constructor
      · intro hk hc
        rcases hc with hc | hc
        · exact h hc.symm
        · exact hk hc
      · intro hk hc
        exact hk (Or.inr hc)

theorem occ_pos_iff_mem (a : α) (l : List α) : 0 < occ a l ↔ a ∈ l := by
  rw [Nat.pos_iff_ne_zero, ← Decidable.not_iff_not]
  push_neg
  exact occ_eq_zero_iff a l

theorem occ_listRemove_self (a : α) (l : List α) (h : a ∈ l) :
    occ a (listRemove l a) + 1 = occ a l := by
  induction l with
  | nil => simp at h
  | cons x rest ih =>
    by_cases h0 : x = a
    · simp only [listRemove, if_pos h0, occ_cons, if_pos h0]
      omega
    · have hmem : a ∈ rest := by
        rcases List.mem_cons.mp h with h1 | h1
        · exact absurd h1.symm h0
        · exact h1
      simp only [listRemove, if_neg h0, occ_cons, if_neg h0, Nat.zero_add]
      exact ih hmem

theorem occ_listRemove_ne (a a' : α) (l : List α) (h : a' ≠ a) :
    occ a' (listRemove l a) = occ a' l := by
  induction l with
  | nil => simp [listRemove]
  | cons x rest ih =>
    by_cases h0 : x = a
    · subst h0
      have hr : listRemove (x :: rest) x = rest := by simp [listRemove]
      rw [hr, occ_cons, if_neg (Ne.symm h)]
      omega
    · simp only [listRemove, if_neg h0, occ_cons, ih]

end OccLemmas

/-! ### Lemmas about slot occurrence sums -/

@[simp] theorem sumOcc_nil (k : String) : sumOcc k [] = 0 := rfl

@[simp] theorem sumOcc_cons (k : String) (p : Nat × List String)
    (l : List (Nat × List String)) :
    sumOcc k (p :: l) = occ k p.2 + sumOcc k l := by
  obtain ⟨c, subs⟩ := p
  rfl

theorem sumOcc_append (k : String) (l1 l2 : List (Nat × List String)) :
    sumOcc k (l1 ++ l2) = sumOcc k l1 + sumOcc k l2 := by
  induction l1 with
  | nil => simp
  | cons p rest ih =>
    simp only [List.cons_append, sumOcc_cons, ih]
    omega

theorem sumOcc_eq_zero_iff (k : String) (l : List (Nat × List String)) :
    sumOcc k l = 0 ↔ ∀ p ∈ l, k ∉ p.2 := by
  induction l with
  | nil => simp
  | cons p rest ih =>
    simp only [sumOcc_cons, Nat.add_eq_zero, ih, occ_eq_zero_iff, List.mem_cons]
    constructor
    · rintro ⟨h1, h2⟩ q hq
      rcases hq with hq | hq
      · rw [hq]; exact h1
      · exact h2 q hq
    · intro h
      exact ⟨h p (Or.inl rfl), fun q hq => h q (Or.inr hq)⟩


/-! ### Lemmas about the pool's linear searches -/

@[simp] theorem firstFit_nil (cap : Nat) : firstFit cap [] = none := rfl

@[simp] theorem firstContaining_nil (s : String) : firstContaining [] s = none := rfl

theorem firstFit_eq_none_iff (cap : Nat) (l : List (Nat × List String)) :
    firstFit cap l = none ↔ ∀ p ∈ l, ¬ p.2.length < cap := by
  induction l with
  | nil => simp
  | cons p rest ih =>
    obtain ⟨c, subs⟩ := p
    by_cases h : subs.length < cap
    · simp only [firstFit, if_pos h]
      constructor
      · intro hsome
        exact absurd hsome (by simp)
      · intro hall
        exact absurd h (hall (c, subs) (List.mem_cons_self _ _))
    · simp only [firstFit, if_neg h, ih, List.mem_cons]
      constructor
      · rintro hall q hq
        rcases hq with hq | hq
        · rw [hq]; exact h
        · exact hall q hq
      · intro hall q hq
        exact hall q (Or.inr hq)

theorem firstFit_some_get (cap : Nat) (l : List (Nat × List String)) (cid : Nat)
    (hnd : (keysOf l).Nodup) (h : firstFit cap l = some cid) :
    ∃ v, dictGet l cid = some v ∧ v.length < cap := by
  induction l with
  | nil => simp at h
  | cons p rest ih =>
    obtain ⟨c, subs⟩ := p
    simp only [keysOf, List.map_cons, List.nodup_cons] at hnd
    by_cases hl : subs.length < cap
    · simp only [firstFit, if_pos hl, Option.some.injEq] at h
      subst h
      exact ⟨subs, by simp, hl⟩
    · simp only [firstFit, if_neg hl] at h
      obtain ⟨v, hget, hlen⟩ := ih hnd.2 h
      have hc : c ≠ cid := by
        intro hc
        subst hc
        exact hnd.1 ((dictGet_isSome_iff rest c).mp (by simp [hget]))
      exact ⟨v, by simp [hc, hget], hlen⟩

theorem firstFit_min (cap : Nat) (l : List (Nat × List String)) (cid : Nat)
    (hsort : (keysOf l).Pairwise (· < ·)) (h : firstFit cap l = some cid) :
    ∀ p ∈ l, p.2.length < cap → cid ≤ p.1 := by
  induction l with
  | nil => simp at h
  | cons p rest ih =>
    obtain ⟨c, subs⟩ := p
    simp only [keysOf, List.map_cons, List.pairwise_cons] at hsort
    by_cases hl : subs.length < cap
    · simp only [firstFit, if_pos hl, Option.some.injEq] at h
      subst h
      rintro q hq _
      rcases List.mem_cons.mp hq with hq | hq
      · rw [hq]
      · exact Nat.le_of_lt (hsort.1 q.1 (List.mem_map_of_mem Prod.fst hq))
    · simp only [firstFit, if_neg hl] at h
      rintro q hq hqlen
      rcases List.mem_cons.mp hq with hq | hq
      · rw [hq] at hqlen
        exact absurd hqlen hl
      · exact ih hsort.2 h q hq hqlen

theorem firstFit_mem (cap : Nat) (l : List (Nat × List String)) (cid : Nat)
    (h : firstFit cap l = some cid) : cid ∈ keysOf l := by
  induction l with
  | nil => simp at h
  | cons p rest ih =>
    obtain ⟨c, subs⟩ := p
    by_cases hl : subs.length < cap
    · simp only [firstFit, if_pos hl, Option.some.injEq] at h
      simp [keysOf, h]
    · simp only [firstFit, if_neg hl] at h
      simp [keysOf]
      right
      simpa [keysOf] using ih h

theorem firstContaining_eq_none_iff (l : List (Nat × List String)) (s : String) :
    firstContaining l s = none ↔ ∀ p ∈ l, s ∉ p.2 := by
  induction l with
  | nil => simp
  | cons p rest ih =>
    obtain ⟨c, subs⟩ := p
    by_cases h : s ∈ subs
    · simp only [firstContaining, if_pos h]
      constructor
      · intro hsome
        exact absurd hsome (by simp)
      · intro hall
        exact absurd h (hall (c, subs) (List.mem_cons_self _ _))
    · simp only [firstContaining, if_neg h, ih, List.mem_cons]
      constructor
      · rintro hall q hq
        rcases hq with hq | hq
        · rw [hq]; exact h
        · exact hall q hq
      · intro hall q hq
        exact hall q (Or.inr hq)

theorem firstContaining_some_get (l : List (Nat × List String)) (s : String)
    (cid : Nat) (hnd : (keysOf l).Nodup) (h : firstContaining l s = some cid) :
    ∃ v, dictGet l cid = some v ∧ s ∈ v := by
  induction l with
  | nil => simp at h
  | cons p rest ih =>
    obtain ⟨c, subs⟩ := p
    simp only [keysOf, List.map_cons, List.nodup_cons] at hnd
    by_cases hm : s ∈ subs
    · simp only [firstContaining, if_pos hm, Option.some.injEq] at h
      subst h
      exact ⟨subs, by simp, hm⟩
    · simp only [firstContaining, if_neg hm] at h
      obtain ⟨v, hget, hsm⟩ := ih hnd.2 h
      have hc : c ≠ cid := by
        intro hc
        subst hc
        exact hnd.1 ((dictGet_isSome_iff rest c).mp (by simp [hget]))
      exact ⟨v, by simp [hc, hget], hsm⟩

/-! ### Lemmas about maps over id lists (the single-key shapes) -/

theorem keysOf_mapIds {α : Type} (ids : List Nat) (f : Nat → α) :
    keysOf (ids.map fun i => (i, f i)) = ids := by
  induction ids with
  | nil => rfl
  | cons i rest ih => simp [keysOf] at ih ⊢; exact ih

theorem dictGet_mapIds {α : Type} (ids : List Nat) (f : Nat → α) (j : Nat) :
    dictGet (ids.map fun i => (i, f i)) j = if j ∈ ids then some (f j) else none := by
  induction ids with
  | nil => simp
  | cons i rest ih =>
    by_cases h : i = j
    · subst h
      simp
    · simp [h, ih, Ne.symm h]

theorem dictSet_mapIds {α : Type} (ids : List Nat) (f : Nat → α) (j : Nat) (v : α)
    (hnd : ids.Nodup) (hj : j ∈ ids) :
    dictSet (ids.map fun i => (i, f i)) j v =
      ids.map fun i => (i, if i = j then v else f i) := by
  induction ids with
  | nil => simp at hj
  | cons i rest ih =>
    simp only [List.nodup_cons] at hnd
    by_cases h : i = j
    · subst h
      have hmap : (rest.map fun x => ((x, if x = i then v else f x) : Nat × α)) =
          rest.map fun x => (x, f x) :=
        List.map_congr_left (by
          intro x hx
          have hne : x ≠ i := fun hxi => hnd.1 (hxi ▸ hx)
          simp [hne])
      simp [dictSet, hmap]
    · have hj2 : j ∈ rest := by
        rcases List.mem_cons.mp hj with hj | hj
        · exact absurd hj.symm h
        · exact hj
      simp only [List.map_cons, dictSet, if_neg h, ih hnd.2 hj2, if_neg h]

theorem mapIds_congr {α : Type} (ids : List Nat) (f g : Nat → α)
    (h : ∀ i ∈ ids, f i = g i) :
    (ids.map fun i => (i, f i)) = ids.map fun i => (i, g i) :=
  List.map_congr_left fun i hi => by rw [h i hi]

theorem firstContaining_mapIds (ids : List Nat) (j : Nat) (k : String) :
    firstContaining (ids.map fun i => (i, if i = j then [k] else [])) k =
      if j ∈ ids then some j else none := by
  induction ids with
  | nil => simp
  | cons i rest ih =>
    by_cases h : i = j
    · subst h
      simp [firstContaining]
    · have hk : k ∉ (if i = j then [k] else ([] : List String)) := by
        simp [h]
      simp only [List.map_cons, firstContaining, if_neg hk, ih, List.mem_cons]
      by_cases hj : j ∈ rest
      · simp [hj]
      · simp [hj, Ne.symm h]

theorem firstFit_mapIds_empty (cap : Nat) (ids : List Nat) :
    firstFit cap (ids.map fun i => (i, ([] : List String))) =
      if 0 < cap then ids.head? else none := by
  cases ids with
  | nil => simp
  | cons i rest =>
    by_cases h : 0 < cap
    · simp [firstFit, h]
    · simp only [List.map_cons, firstFit, List.length_nil, if_neg h, if_neg h]
      rw [firstFit_eq_none_iff]
      intro p hp
      obtain ⟨x, hx, rfl⟩ := List.mem_map.mp hp
      simpa using h


/-! ### Characterizations of the transport-facing helpers -/

theorem dictSet_dictSet_same {κ α : Type} [DecidableEq κ]
    (l : List (κ × α)) (k : κ) (v w : α) :
    dictSet (dictSet l k v) k w = dictSet l k w := by
  induction l with
  | nil => simp [dictSet]
  | cons p rest ih =>
    obtain ⟨k0, v0⟩ := p
    by_cases h : k0 = k
    · subst h
      simp [dictSet]
    · simp [dictSet, h, ih]

theorem sendMsg_state (st : WsState) (clientId : Nat) (msg : WsMsg) :
    (sendMsg st clientId msg).1 = st := by
  unfold sendMsg
  match dictGet st.clients clientId with
  | some true => rfl
  | some false => rfl
  | none => rfl

theorem sendMsg_live (st : WsState) (clientId : Nat) (msg : WsMsg)
    (h : dictGet st.clients clientId = some true) :
    sendMsg st clientId msg = (st, [WsEvent.sent clientId msg]) := by
  unfold sendMsg
  rw [h]

theorem subscribeAll_eq (cfg : WsConfig) (st : WsState) (clientId : Nat)
    (h : dictGet st.clients clientId = some true) :
    subscribeAll cfg st clientId =
      (st, [WsEvent.sent clientId (bulkMsgFor cfg ((dictGet st.clientSubs clientId).getD []))]) := by
  unfold subscribeAll bulkMsgFor
  exact sendMsg_live st clientId _ h

theorem connectClient_empty (cfg : WsConfig) (st : WsState) (clientId : Nat)
    (h : (dictGet st.clientSubs clientId).getD [] = []) :
    connectClient cfg st clientId = (st, [WsEvent.logError "Cannot connect: no subscriptions"]) := by
  unfold connectClient
  rw [if_pos h]


theorem connectClient_eq (cfg : WsConfig) (st : WsState) (clientId : Nat)
    (h : (dictGet st.clientSubs clientId).getD [] ≠ []) :
    connectClient cfg st clientId =
      ({ st with
          clients := dictSet st.clients clientId true
          isConnecting := dictSet st.isConnecting clientId false },
        [WsEvent.sent clientId (bulkMsgFor cfg ((dictGet st.clientSubs clientId).getD []))]) := by
  simp only [connectClient, if_neg h, subscribeAll, sendMsg, bulkMsgFor,
    dictGet_dictSet_self, dictSet_dictSet_same]


theorem connectClient_state (cfg : WsConfig) (st : WsState) (clientId : Nat) :
    (connectClient cfg st clientId).1 =
      if (dictGet st.clientSubs clientId).getD [] = [] then st
      else
        { st with
          clients := dictSet st.clients clientId true
          isConnecting := dictSet st.isConnecting clientId false } := by
  by_cases h : (dictGet st.clientSubs clientId).getD [] = []
  · rw [connectClient_empty cfg st clientId h, if_pos h]
  · rw [connectClient_eq cfg st clientId h, if_neg h]

theorem connectClient_core (cfg : WsConfig) (st : WsState) (clientId : Nat) :
    core (connectClient cfg st clientId).1 = core st := by
  rw [connectClient_state]
  by_cases h : (dictGet st.clientSubs clientId).getD [] = []
  · rw [if_pos h]
  · rw [if_neg h]
    rfl

theorem disconnectClient_core (st : WsState) (clientId : Nat) :
    core (disconnectClient st clientId) = core st := by
  unfold disconnectClient
  match dictGet st.clients clientId with
  | some true => rfl
  | some false => rfl
  | none => rfl

theorem core_fields (st st' : WsState) (h : core st' = core st) :
    st'.subscriptions = st.subscriptions ∧
    st'.subscriptionCounts = st.subscriptionCounts ∧
    st'.clientSubs = st.clientSubs ∧
    st'.nextClientId = st.nextClientId := by
  unfold core at h
  exact ⟨congrArg (fun t => t.1) h, congrArg (fun t => t.2.1) h,
    congrArg (fun t => t.2.2.1) h, congrArg (fun t => t.2.2.2) h⟩

/-- The bookkeeping effect of `subscribe` coincides with `add_subscription`:
the two share their registry/pool mutations, and the network actions of
`subscribe` touch only transport handles and connecting flags. -/
theorem subscribe_core (cfg : WsConfig) (st : WsState) (subscription : String) :
    core (subscribe cfg st subscription).1 = core (addSubscription cfg st subscription) := by
  simp only [subscribe, addSubscription]
  by_cases h : 0 < (bumpCount st subscription).1
  · rw [if_pos h, if_pos h]
    cases hc : getClientForSubscription (bumpCount st subscription).2 subscription with
    | none => rfl
    | some clientId =>
        dsimp only
        by_cases hr : dictGet (bumpCount st subscription).2.clients clientId ≠ some true ∧
            (dictGet (bumpCount st subscription).2.isConnecting clientId).getD false = false
        · rw [if_pos hr]
          exact connectClient_core cfg _ clientId
        · rw [if_neg hr]
  · rw [if_neg h, if_neg h]
    by_cases hl : dictGet (registerNewKey cfg (bumpCount st subscription).2 subscription).2.clients
        (registerNewKey cfg (bumpCount st subscription).2 subscription).1 ≠ some true
    · rw [if_pos hl]
      exact connectClient_core cfg _ _
    · rw [if_neg hl]
      by_cases hw : (dictGet (registerNewKey cfg (bumpCount st subscription).2 subscription).2.isConnecting
          (registerNewKey cfg (bumpCount st subscription).2 subscription).1).getD false = true
      · rw [if_pos hw]
      · rw [if_neg hw]
        rw [sendMsg_state]


/-! ### Branch characterizations of the coordinator operations -/

theorem countD_dictSet_self (d : List (String × Nat)) (k : String) (v : Nat) :
    countD (dictSet d k v) k = v := by
  simp [countD, dictGet_dictSet_self]

theorem countD_dictSet_ne (d : List (String × Nat)) (k k' : String) (v : Nat)
    (h : k' ≠ k) : countD (dictSet d k v) k' = countD d k' := by
  simp [countD, dictGet_dictSet_ne _ _ _ _ h]

theorem countD_dictPop_self (d : List (String × Nat)) (k : String)
    (hnd : (keysOf d).Nodup) : countD (dictPop d k) k = 0 := by
  simp [countD, dictGet_dictPop_self _ _ hnd]

theorem countD_dictPop_ne (d : List (String × Nat)) (k k' : String)
    (h : k' ≠ k) : countD (dictPop d k) k' = countD d k' := by
  simp [countD, dictGet_dictPop_ne _ _ _ h]

theorem bumpCount_fst (st : WsState) (k : String) :
    (bumpCount st k).1 = countOf st k := rfl

theorem bumpCount_snd (st : WsState) (k : String) :
    (bumpCount st k).2 =
      { st with subscriptionCounts := dictSet st.subscriptionCounts k (countOf st k + 1) } := rfl

theorem registerNewKey_found (cfg : WsConfig) (st : WsState) (k : String) (cid : Nat)
    (h : firstFit cfg.maxSubscriptionsPerConnection st.clientSubs = some cid) :
    registerNewKey cfg st k =
      (cid,
        { st with
          subscriptions := st.subscriptions ++ [k]
          clientSubs :=
            dictSet st.clientSubs cid (((dictGet st.clientSubs cid).getD []) ++ [k]) }) := by
  simp only [registerNewKey, getClientIdForNewSubscription]
  rw [h]

theorem registerNewKey_fresh (cfg : WsConfig) (st : WsState) (k : String)
    (h : firstFit cfg.maxSubscriptionsPerConnection st.clientSubs = none) :
    registerNewKey cfg st k =
      (st.nextClientId,
        { st with
          subscriptions := st.subscriptions ++ [k]
          clients := dictSet st.clients st.nextClientId false
          clientSubs := dictSet st.clientSubs st.nextClientId [k]
          isConnecting := dictSet st.isConnecting st.nextClientId false
          nextClientId := st.nextClientId + 1 }) := by
  simp only [registerNewKey, getClientIdForNewSubscription]
  rw [h]
  simp [dictGet_dictSet_self, dictSet_dictSet_same]

theorem unsubscribe_zero (cfg : WsConfig) (st : WsState) (k : String)
    (h : countOf st k = 0) :
    unsubscribe cfg st k =
      (st, [WsEvent.logWarning ("Cannot unsubscribe from " ++ k ++ ": not subscribed")]) := by
  simp only [unsubscribe]
  rw [show (dictGet st.subscriptionCounts k).getD 0 = 0 from h]
  simp

theorem unsubscribe_dec (cfg : WsConfig) (st : WsState) (k : String)
    (h : 1 < countOf st k) :
    unsubscribe cfg st k =
      ({ st with subscriptionCounts := dictSet st.subscriptionCounts k (countOf st k - 1) }, []) := by
  have h0 : (dictGet st.subscriptionCounts k).getD 0 = countOf st k := rfl
  simp only [unsubscribe, h0]
  rw [if_neg (by omega), if_pos h]


theorem sendMsg_events (st : WsState) (clientId : Nat) (msg : WsMsg) :
    (sendMsg st clientId msg).2 =
      if dictGet st.clients clientId = some true then [WsEvent.sent clientId msg]
      else [WsEvent.logError "Cannot send message: not connected"] := by
  cases h : dictGet st.clients clientId with
  | none => simp [sendMsg, h]
  | some b => cases b <;> simp [sendMsg, h]

/-- Characterization of `unsubscribe` on the 1-to-0 transition: the key leaves
the registry, the counts dictionary, and its (unique, by the occurrence bound)
slot; one dynamic unsubscribe frame is attempted on that slot. -/
theorem unsubscribe_one (cfg : WsConfig) (st : WsState) (k : String)
    (hnd : (keysOf st.clientSubs).Nodup)
    (hmem : k ∈ st.subscriptions)
    (hocc : 0 < sumOcc k st.clientSubs)
    (h1 : countOf st k = 1) :
    ∃ cid v, getClientForSubscription st k = some cid ∧
      dictGet st.clientSubs cid = some v ∧ k ∈ v ∧
      core (unsubscribe cfg st k).1 =
        (listRemove st.subscriptions k, dictPop st.subscriptionCounts k,
         dictSet st.clientSubs cid (listRemove v k), st.nextClientId) ∧
      (unsubscribe cfg st k).2 =
        (if dictGet st.clients cid = some true then
          [WsEvent.sent cid (createDynamicUnsubscribeMsg cfg [k])]
        else [WsEvent.logError "Cannot send message: not connected"]) := by
  obtain ⟨cid, hcid⟩ : ∃ cid, firstContaining st.clientSubs k = some cid := by
    cases hfc : firstContaining st.clientSubs k with
    | some c => exact ⟨c, rfl⟩
    | none =>
        exfalso
        rw [firstContaining_eq_none_iff] at hfc
        rw [← sumOcc_eq_zero_iff k st.clientSubs] at hfc
        omega
  obtain ⟨v, hv, hkv⟩ := firstContaining_some_get st.clientSubs k cid hnd hcid
  refine ⟨cid, v, hcid, hv, hkv, ?_⟩
  have h0 : (dictGet st.subscriptionCounts k).getD 0 = 1 := h1
  simp only [unsubscribe, h0]
  rw [if_neg (by omega)]
  rw [if_neg (by omega)]
  simp only [if_pos hmem]
  have hgc :
      getClientForSubscription
        { st with subscriptionCounts := dictPop st.subscriptionCounts k } k =
        some cid := hcid
  rw [hgc]
  simp only [hv, Option.isSome_some, Option.getD_some, true_and, if_pos hkv,
    dictGet_dictSet_self]
  by_cases hrem : listRemove v k = []
  · simp only [hrem, Option.isSome_some, Option.getD_some, true_and,
      eq_self_iff_true, if_true]
    constructor
    · rw [disconnectClient_core, sendMsg_state]
      rfl
    · rw [sendMsg_events]
  · simp only [Option.isSome_some, Option.getD_some, true_and, if_neg hrem]
    constructor
    · rw [sendMsg_state]
      rfl
    · rw [sendMsg_events]


/-! ### Invariant preservation -/

theorem addSubscription_pos (cfg : WsConfig) (st : WsState) (k : String)
    (h : 0 < countOf st k) :
    addSubscription cfg st k =
      { st with subscriptionCounts := dictSet st.subscriptionCounts k (countOf st k + 1) } := by
  simp only [addSubscription, bumpCount_fst, if_pos h, bumpCount_snd]

theorem addSubscription_zero (cfg : WsConfig) (st : WsState) (k : String)
    (h : countOf st k = 0) :
    addSubscription cfg st k =
      (registerNewKey cfg
        { st with subscriptionCounts := dictSet st.subscriptionCounts k 1 } k).2 := by
  simp only [addSubscription, bumpCount_fst, h, if_neg (by omega : ¬ 0 < 0), bumpCount_snd]

theorem pairwise_lt_append_singleton (l : List Nat) (a : Nat)
    (hl : l.Pairwise (· < ·)) (ha : ∀ x ∈ l, x < a) :
    (l ++ [a]).Pairwise (· < ·) := by
  rw [List.pairwise_append]
  exact ⟨hl, List.pairwise_singleton _ _, fun x hx b hb => by
    rw [List.mem_singleton.mp hb]; exact ha x hx⟩

theorem countOf_mk (a : List String) (d : List (String × Nat)) (c : List (Nat × Bool))
    (cs : List (Nat × List String)) (ic : List (Nat × Bool)) (n : Nat) (k : String) :
    countOf ⟨a, d, c, cs, ic, n⟩ k = countD d k := rfl

theorem StInv_addSubscription (cfg : WsConfig) (st : WsState) (k : String)
    (hinv : StInv st) : StInv (addSubscription cfg st k) := by
  obtain ⟨hndC, hpw, hbound, hoccS, hoccP⟩ := hinv
  have hoccS' : ∀ k', occ k' st.subscriptions =
      if 0 < countD st.subscriptionCounts k' then 1 else 0 := hoccS
  have hoccP' : ∀ k', sumOcc k' st.clientSubs =
      if 0 < countD st.subscriptionCounts k' then 1 else 0 := hoccP
  by_cases h : 0 < countOf st k
  · rw [addSubscription_pos cfg st k h]
    refine ⟨nodup_keysOf_dictSet _ _ _ hndC, hpw, hbound, ?_, ?_⟩
    · intro k'
      show occ k' st.subscriptions = _
      rw [countOf_mk]
      by_cases hk : k' = k
      · subst hk
        rw [countD_dictSet_self, hoccS' k',
          if_pos (show 0 < countD st.subscriptionCounts k' from h),
          if_pos (by omega : 0 < countOf st k' + 1)]
      · rw [countD_dictSet_ne _ _ _ _ hk]
        exact hoccS' k'
    · intro k'
      show sumOcc k' st.clientSubs = _
      rw [countOf_mk]
      by_cases hk : k' = k
      · subst hk
        rw [countD_dictSet_self, hoccP' k',
          if_pos (show 0 < countD st.subscriptionCounts k' from h),
          if_pos (by omega : 0 < countOf st k' + 1)]
      · rw [countD_dictSet_ne _ _ _ _ hk]
        exact hoccP' k'
  · have h0 : countOf st k = 0 := by omega
    rw [addSubscription_zero cfg st k h0]
    have hndSlots : (keysOf st.clientSubs).Nodup :=
      hpw.imp fun hab => Nat.ne_of_lt hab
    set stB : WsState :=
      { st with subscriptionCounts := dictSet st.subscriptionCounts k 1 } with hstB
    have hndCB : (keysOf stB.subscriptionCounts).Nodup :=
      nodup_keysOf_dictSet _ _ _ hndC
    have hoccSB : ∀ k', occ k' stB.subscriptions =
        if 0 < countD st.subscriptionCounts k' then 1 else 0 := hoccS
    have hoccPB : ∀ k', sumOcc k' stB.clientSubs =
        if 0 < countD st.subscriptionCounts k' then 1 else 0 := hoccP
    have hpwB : (keysOf stB.clientSubs).Pairwise (· < ·) := hpw
    have hboundB : ∀ c ∈ keysOf stB.clientSubs, c < stB.nextClientId := hbound
    have hndSlotsB : (keysOf stB.clientSubs).Nodup := hndSlots
    have hcD : countD st.subscriptionCounts k = 0 := h0
    have hBcounts : stB.subscriptionCounts = dictSet st.subscriptionCounts k 1 := rfl
    clear_value stB
    cases hff : firstFit cfg.maxSubscriptionsPerConnection stB.clientSubs with
    | some cid =>
        obtain ⟨v, hget, hlen⟩ :=
          firstFit_some_get cfg.maxSubscriptionsPerConnection stB.clientSubs cid
            hndSlotsB hff
        rw [registerNewKey_found cfg stB k cid hff]
        have hmemKeys : cid ∈ keysOf stB.clientSubs :=
          (dictGet_isSome_iff _ _).mp (by simp [hget])
        obtain ⟨l1, l2, hdec, hne1, hset, hpop⟩ := dict_decomp stB.clientSubs cid v hget
        refine ⟨hndCB, ?_, ?_, ?_, ?_⟩
        · show (keysOf (dictSet stB.clientSubs cid
            (((dictGet stB.clientSubs cid).getD []) ++ [k]))).Pairwise (· < ·)
          rw [keysOf_dictSet_mem _ _ _ hmemKeys]
          exact hpwB
        · intro c hc
          rw [show keysOf (dictSet stB.clientSubs cid
              (((dictGet stB.clientSubs cid).getD []) ++ [k])) = keysOf stB.clientSubs
            from keysOf_dictSet_mem _ _ _ hmemKeys] at hc
          exact hboundB c hc
        · intro k'
          show occ k' (stB.subscriptions ++ [k]) = _
          rw [occ_append]
          by_cases hk : k' = k
          · subst hk
            simp only [countOf_mk, hBcounts, countD_dictSet_self]
            rw [hoccSB k', if_neg (by omega), if_pos (by omega : 0 < 1)]
            simp
          · simp only [countOf_mk, hBcounts, countD_dictSet_ne _ _ _ _ hk]
            rw [hoccSB k']
            have hz : occ k' [k] = 0 := by simp [Ne.symm hk]
            omega
        · intro k'
          show sumOcc k' (dictSet stB.clientSubs cid
            (((dictGet stB.clientSubs cid).getD []) ++ [k])) = _
          rw [hget]
          simp only [Option.getD_some]
          rw [hset (v ++ [k]), sumOcc_append, sumOcc_cons]
          have hold : sumOcc k' stB.clientSubs = sumOcc k' l1 + (occ k' v + sumOcc k' l2) := by
            rw [hdec, sumOcc_append, sumOcc_cons]
          by_cases hk : k' = k
          · subst hk
            simp only [countOf_mk, hBcounts, countD_dictSet_self]
            have hz : sumOcc k' stB.clientSubs = 0 := by
              rw [hoccPB k', if_neg (by omega)]
            rw [hold] at hz
            rw [occ_append]
            have h1 : occ k' [k'] = 1 := by simp
            rw [if_pos (by omega : 0 < 1)]
            omega
          · simp only [countOf_mk, hBcounts, countD_dictSet_ne _ _ _ _ hk]
            have hocc' := hoccPB k'
            rw [hold] at hocc'
            rw [occ_append]
            have hz : occ k' [k] = 0 := by simp [Ne.symm hk]
            omega
    | none =>
        rw [registerNewKey_fresh cfg stB k hff]
        have hfreshKey : stB.nextClientId ∉ keysOf stB.clientSubs := by
          intro hc
          exact absurd (hboundB _ hc) (by omega)
        refine ⟨hndCB, ?_, ?_, ?_, ?_⟩
        · show (keysOf (dictSet stB.clientSubs stB.nextClientId [k])).Pairwise (· < ·)
          rw [keysOf_dictSet_fresh _ _ _ hfreshKey]
          exact pairwise_lt_append_singleton _ _ hpwB hboundB
        · intro c hc
          rw [show keysOf (dictSet stB.clientSubs stB.nextClientId [k]) =
              keysOf stB.clientSubs ++ [stB.nextClientId]
            from keysOf_dictSet_fresh _ _ _ hfreshKey] at hc
          rcases List.mem_append.mp hc with hc | hc
          · exact Nat.lt_succ_of_lt (hboundB c hc)
          · rw [List.mem_singleton.mp hc]
            exact Nat.lt_succ_self _
        · intro k'
          show occ k' (stB.subscriptions ++ [k]) = _
          rw [occ_append]
          by_cases hk : k' = k
          · subst hk
            simp only [countOf_mk, hBcounts, countD_dictSet_self]
            rw [hoccSB k', if_neg (by omega), if_pos (by omega : 0 < 1)]
            simp
          · simp only [countOf_mk, hBcounts, countD_dictSet_ne _ _ _ _ hk]
            rw [hoccSB k']
            have hz : occ k' [k] = 0 := by simp [Ne.symm hk]
            omega
        · intro k'
          show sumOcc k' (dictSet stB.clientSubs stB.nextClientId [k]) = _
          rw [dictSet_fresh _ _ _ hfreshKey, sumOcc_append, sumOcc_cons]
          by_cases hk : k' = k
          · subst hk
            simp only [countOf_mk, hBcounts, countD_dictSet_self]
            have hz : sumOcc k' stB.clientSubs = 0 := by
              rw [hoccPB k', if_neg (by omega)]
            have h1 : occ k' [k'] = 1 := by simp
            rw [if_pos (by omega : 0 < 1)]
            simp only [sumOcc_nil]
            omega
          · simp only [countOf_mk, hBcounts, countD_dictSet_ne _ _ _ _ hk]
            have hz : occ k' [k] = 0 := by simp [Ne.symm hk]
            have hP := hoccPB k'
            simp only [sumOcc_nil]
            omega


theorem length_listRemove_le {α : Type} [DecidableEq α] (l : List α) (a : α) :
    (listRemove l a).length ≤ l.length := by
  induction l with
  | nil => simp [listRemove]
  | cons x rest ih =>
    by_cases h : x = a
    · simp [listRemove, h]
    · simp only [listRemove, if_neg h, List.length_cons]
      omega

theorem CapInv_addSubscription (cfg : WsConfig) (st : WsState) (k : String)
    (hcap : 1 ≤ cfg.maxSubscriptionsPerConnection)
    (hinv : CapInv cfg.maxSubscriptionsPerConnection st) (hst : StInv st) :
    CapInv cfg.maxSubscriptionsPerConnection (addSubscription cfg st k) := by
  obtain ⟨hndC, hpw, hbound, hoccS, hoccP⟩ := hst
  by_cases h : 0 < countOf st k
  · rw [addSubscription_pos cfg st k h]
    exact fun p hp => hinv p hp
  · have h0 : countOf st k = 0 := by omega
    rw [addSubscription_zero cfg st k h0]
    set stB : WsState :=
      { st with subscriptionCounts := dictSet st.subscriptionCounts k 1 } with hstB
    have hinvB : ∀ p ∈ stB.clientSubs, p.2.length ≤ cfg.maxSubscriptionsPerConnection :=
      fun p hp => hinv p hp
    have hndSlotsB : (keysOf stB.clientSubs).Nodup :=
      hpw.imp fun hab => Nat.ne_of_lt hab
    have hboundB : ∀ c ∈ keysOf stB.clientSubs, c < stB.nextClientId := hbound
    clear_value stB
    cases hff : firstFit cfg.maxSubscriptionsPerConnection stB.clientSubs with
    | some cid =>
        obtain ⟨v, hget, hlen⟩ :=
          firstFit_some_get cfg.maxSubscriptionsPerConnection stB.clientSubs cid
            hndSlotsB hff
        rw [registerNewKey_found cfg stB k cid hff]
        obtain ⟨l1, l2, hdec, hne1, hset, hpop⟩ := dict_decomp stB.clientSubs cid v hget
        intro p hp
        show p.2.length ≤ _
        rw [show (dictSet stB.clientSubs cid (((dictGet stB.clientSubs cid).getD []) ++ [k])) =
            l1 ++ (cid, v ++ [k]) :: l2 by rw [hget]; exact hset (v ++ [k])] at hp
        rcases List.mem_append.mp hp with hp | hp
        · exact hinvB p (by rw [hdec]; exact List.mem_append_left _ hp)
        · rcases List.mem_cons.mp hp with hp | hp
          · rw [hp]
            simp only [List.length_append, List.length_singleton]
            omega
          · exact hinvB p (by
              rw [hdec]
              exact List.mem_append_right _ (List.mem_cons_of_mem _ hp))
    | none =>
        rw [registerNewKey_fresh cfg stB k hff]
        have hfreshKey : stB.nextClientId ∉ keysOf stB.clientSubs := by
          intro hc
          exact absurd (hboundB _ hc) (by omega)
        intro p hp
        show p.2.length ≤ _
        rw [dictSet_fresh _ _ _ hfreshKey] at hp
        rcases List.mem_append.mp hp with hp | hp
        · exact hinvB p hp
        · rw [List.mem_singleton.mp hp]
          simpa using hcap

theorem core_eq_fields (st : WsState) (a : List String) (b : List (String × Nat))
    (c : List (Nat × List String)) (d : Nat) (h : core st = (a, b, c, d)) :
    st.subscriptions = a ∧ st.subscriptionCounts = b ∧ st.clientSubs = c ∧
      st.nextClientId = d := by
  unfold core at h
  exact ⟨congrArg (fun t => t.1) h, congrArg (fun t => t.2.1) h,
    congrArg (fun t => t.2.2.1) h, congrArg (fun t => t.2.2.2) h⟩

theorem StInv_of_core (st st' : WsState) (h : core st' = core st) (hinv : StInv st) :
    StInv st' := by
  obtain ⟨h1, h2, h3, h4⟩ := core_fields st st' h
  unfold StInv countOf countD at hinv ⊢
  rw [h1, h2, h3, h4]
  exact hinv

theorem CapInv_of_core (cap : Nat) (st st' : WsState) (h : core st' = core st)
    (hinv : CapInv cap st) : CapInv cap st' := by
  obtain ⟨h1, h2, h3, h4⟩ := core_fields st st' h
  unfold CapInv at hinv ⊢
  rw [h3]
  exact hinv

theorem StInv_subscribe (cfg : WsConfig) (st : WsState) (k : String)
    (hinv : StInv st) : StInv (subscribe cfg st k).1 :=
  StInv_of_core _ _ (subscribe_core cfg st k) (StInv_addSubscription cfg st k hinv)

theorem CapInv_subscribe (cfg : WsConfig) (st : WsState) (k : String)
    (hcap : 1 ≤ cfg.maxSubscriptionsPerConnection)
    (hinv : CapInv cfg.maxSubscriptionsPerConnection st) (hst : StInv st) :
    CapInv cfg.maxSubscriptionsPerConnection (subscribe cfg st k).1 :=
  CapInv_of_core _ _ _ (subscribe_core cfg st k)
    (CapInv_addSubscription cfg st k hcap hinv hst)


theorem sumOcc_pair (k : String) (c : Nat) (subs : List String)
    (l : List (Nat × List String)) :
    sumOcc k ((c, subs) :: l) = occ k subs + sumOcc k l := rfl

theorem StInv_unsubscribe (cfg : WsConfig) (st : WsState) (k : String)
    (hinv : StInv st) : StInv (unsubscribe cfg st k).1 := by
  obtain ⟨hndC, hpw, hbound, hoccS, hoccP⟩ := hinv
  have hoccS' : ∀ k', occ k' st.subscriptions =
      if 0 < countD st.subscriptionCounts k' then 1 else 0 := hoccS
  have hoccP' : ∀ k', sumOcc k' st.clientSubs =
      if 0 < countD st.subscriptionCounts k' then 1 else 0 := hoccP
  have hcd : ∀ k', countD st.subscriptionCounts k' = countOf st k' := fun _ => rfl
  by_cases h0 : countOf st k = 0
  · rw [unsubscribe_zero cfg st k h0]
    exact ⟨hndC, hpw, hbound, hoccS, hoccP⟩
  by_cases h2 : 1 < countOf st k
  · rw [unsubscribe_dec cfg st k h2]
    refine ⟨nodup_keysOf_dictSet _ _ _ hndC, hpw, hbound, ?_, ?_⟩
    · intro k'
      show occ k' st.subscriptions = _
      rw [countOf_mk]
      by_cases hk : k' = k
      · subst hk
        rw [countD_dictSet_self, hoccS' k',
          if_pos (show 0 < countD st.subscriptionCounts k' by rw [hcd]; omega),
          if_pos (by omega : 0 < countOf st k' - 1)]
      · rw [countD_dictSet_ne _ _ _ _ hk]
        exact hoccS' k'
    · intro k'
      show sumOcc k' st.clientSubs = _
      rw [countOf_mk]
      by_cases hk : k' = k
      · subst hk
        rw [countD_dictSet_self, hoccP' k',
          if_pos (show 0 < countD st.subscriptionCounts k' by rw [hcd]; omega),
          if_pos (by omega : 0 < countOf st k' - 1)]
      · rw [countD_dictSet_ne _ _ _ _ hk]
        exact hoccP' k'
  · have h1 : countOf st k = 1 := by omega
    have hndSlots : (keysOf st.clientSubs).Nodup :=
      hpw.imp fun hab => Nat.ne_of_lt hab
    have hmem : k ∈ st.subscriptions := by
      rw [← occ_pos_iff_mem, hoccS' k, if_pos (show 0 < countD st.subscriptionCounts k by rw [hcd]; omega)]
      omega
    have hocc : 0 < sumOcc k st.clientSubs := by
      rw [hoccP' k, if_pos (show 0 < countD st.subscriptionCounts k by rw [hcd]; omega)]
      omega
    obtain ⟨cid, v, hfc, hv, hkv, hcore, hevs⟩ :=
      unsubscribe_one cfg st k hndSlots hmem hocc h1
    obtain ⟨e1, e2, e3, e4⟩ := core_eq_fields _ _ _ _ _ hcore
    have hmemKeys : cid ∈ keysOf st.clientSubs :=
      (dictGet_isSome_iff _ _).mp (by simp [hv])
    obtain ⟨l1, l2, hdec, hne1, hset, hpop⟩ := dict_decomp st.clientSubs cid v hv
    refine ⟨?_, ?_, ?_, ?_, ?_⟩
    · rw [e2]
      exact nodup_keysOf_dictPop _ _ hndC
    · rw [e3, keysOf_dictSet_mem _ _ _ hmemKeys]
      exact hpw
    · intro c hc
      rw [e3, keysOf_dictSet_mem _ _ _ hmemKeys] at hc
      rw [e4]
      exact hbound c hc
    · intro k'
      rw [e1]
      show occ k' (listRemove st.subscriptions k) =
        if 0 < countOf (unsubscribe cfg st k).1 k' then 1 else 0
      rw [show countOf (unsubscribe cfg st k).1 k' =
          countD (dictPop st.subscriptionCounts k) k' by
        unfold countOf
        rw [e2]]
      by_cases hk : k' = k
      · subst hk
        rw [countD_dictPop_self _ _ hndC, if_neg (by omega)]
        have hz := occ_listRemove_self k' st.subscriptions hmem
        have ho := hoccS' k'
        rw [if_pos (show 0 < countD st.subscriptionCounts k' by rw [hcd]; omega)] at ho
        omega
      · rw [countD_dictPop_ne _ _ _ hk, occ_listRemove_ne _ _ _ hk]
        exact hoccS' k'
    · intro k'
      rw [e3]
      show sumOcc k' (dictSet st.clientSubs cid (listRemove v k)) =
        if 0 < countOf (unsubscribe cfg st k).1 k' then 1 else 0
      rw [show countOf (unsubscribe cfg st k).1 k' =
          countD (dictPop st.subscriptionCounts k) k' by
        unfold countOf
        rw [e2]]
      rw [hset (listRemove v k), sumOcc_append, sumOcc_pair]
      have hold : sumOcc k' st.clientSubs = sumOcc k' l1 + (occ k' v + sumOcc k' l2) := by
        rw [hdec, sumOcc_append, sumOcc_pair]
      by_cases hk : k' = k
      · subst hk
        rw [countD_dictPop_self _ _ hndC, if_neg (by omega)]
        have h1occ : sumOcc k' st.clientSubs = 1 := by
          rw [hoccP' k', if_pos (show 0 < countD st.subscriptionCounts k' by rw [hcd]; omega)]
        rw [hold] at h1occ
        have hrem := occ_listRemove_self k' v hkv
        have hvpos : 0 < occ k' v := by
          rw [occ_pos_iff_mem]
          exact hkv
        omega
      · rw [countD_dictPop_ne _ _ _ hk, occ_listRemove_ne _ _ _ hk]
        have ho := hoccP' k'
        rw [hold] at ho
        omega

theorem CapInv_unsubscribe (cfg : WsConfig) (st : WsState) (k : String)
    (hinv : CapInv cfg.maxSubscriptionsPerConnection st) (hst : StInv st) :
    CapInv cfg.maxSubscriptionsPerConnection (unsubscribe cfg st k).1 := by
  obtain ⟨hndC, hpw, hbound, hoccS, hoccP⟩ := hst
  have hoccS' : ∀ k', occ k' st.subscriptions =
      if 0 < countD st.subscriptionCounts k' then 1 else 0 := hoccS
  have hoccP' : ∀ k', sumOcc k' st.clientSubs =
      if 0 < countD st.subscriptionCounts k' then 1 else 0 := hoccP
  have hcd : ∀ k', countD st.subscriptionCounts k' = countOf st k' := fun _ => rfl
  by_cases h0 : countOf st k = 0
  · rw [unsubscribe_zero cfg st k h0]
    exact hinv
  by_cases h2 : 1 < countOf st k
  · rw [unsubscribe_dec cfg st k h2]
    exact fun p hp => hinv p hp
  · have h1 : countOf st k = 1 := by omega
    have hndSlots : (keysOf st.clientSubs).Nodup :=
      hpw.imp fun hab => Nat.ne_of_lt hab
    have hmem : k ∈ st.subscriptions := by
      rw [← occ_pos_iff_mem, hoccS' k, if_pos (show 0 < countD st.subscriptionCounts k by rw [hcd]; omega)]
      omega
    have hocc : 0 < sumOcc k st.clientSubs := by
      rw [hoccP' k, if_pos (show 0 < countD st.subscriptionCounts k by rw [hcd]; omega)]
      omega
    obtain ⟨cid, v, hfc, hv, hkv, hcore, hevs⟩ :=
      unsubscribe_one cfg st k hndSlots hmem hocc h1
    obtain ⟨e1, e2, e3, e4⟩ := core_eq_fields _ _ _ _ _ hcore
    obtain ⟨l1, l2, hdec, hne1, hset, hpop⟩ := dict_decomp st.clientSubs cid v hv
    intro p hp
    rw [e3, hset (listRemove v k)] at hp
    rcases List.mem_append.mp hp with hp | hp
    · exact hinv p (by rw [hdec]; exact List.mem_append_left _ hp)
    · rcases List.mem_cons.mp hp with hp | hp
      · rw [hp]
        have hle := length_listRemove_le v k
        have hvc : v.length ≤ cfg.maxSubscriptionsPerConnection :=
          hinv (cid, v) (by rw [hdec]; exact List.mem_append_right _ (List.mem_cons_self _ _))
        simp only
        omega
      · exact hinv p (by
          rw [hdec]
          exact List.mem_append_right _ (List.mem_cons_of_mem _ hp))

theorem StInv_initState : StInv initState := by
  refine ⟨List.nodup_nil, List.Pairwise.nil, ?_, ?_, ?_⟩
  · intro c hc
    simp [initState, keysOf] at hc
  · intro k
    simp [initState, countOf, countD]
  · intro k
    simp [initState, countOf, countD]

theorem CapInv_initState (cap : Nat) : CapInv cap initState := by
  intro p hp
  simp [initState] at hp

theorem StInv_applyOp (cfg : WsConfig) (st : WsState) (op : WsOp)
    (hinv : StInv st) : StInv (applyOp cfg st op) := by
  cases op with
  | add s => exact StInv_addSubscription cfg st s hinv
  | sub s => exact StInv_subscribe cfg st s hinv
  | unsub s => exact StInv_unsubscribe cfg st s hinv

theorem CapInv_applyOp (cfg : WsConfig) (st : WsState) (op : WsOp)
    (hcap : 1 ≤ cfg.maxSubscriptionsPerConnection)
    (hinv : CapInv cfg.maxSubscriptionsPerConnection st) (hst : StInv st) :
    CapInv cfg.maxSubscriptionsPerConnection (applyOp cfg st op) := by
  cases op with
  | add s => exact CapInv_addSubscription cfg st s hcap hinv hst
  | sub s => exact CapInv_subscribe cfg st s hcap hinv hst
  | unsub s => exact CapInv_unsubscribe cfg st s hinv hst

theorem StInv_runOps (cfg : WsConfig) (st : WsState) (ops : List WsOp)
    (hinv : StInv st) : StInv (runOps cfg st ops) := by
  induction ops generalizing st with
  | nil => exact hinv
  | cons op rest ih => exact ih _ (StInv_applyOp cfg st op hinv)

theorem CapInv_runOps (cfg : WsConfig) (st : WsState) (ops : List WsOp)
    (hcap : 1 ≤ cfg.maxSubscriptionsPerConnection)
    (hinv : CapInv cfg.maxSubscriptionsPerConnection st) (hst : StInv st) :
    CapInv cfg.maxSubscriptionsPerConnection (runOps cfg st ops) := by
  induction ops generalizing st with
  | nil => exact hinv
  | cons op rest ih =>
      exact ih _ (CapInv_applyOp cfg st op hcap hinv hst) (StInv_applyOp cfg st op hst)


/-! ### Claim theorems -/

/-- C8: for every credentials value and key list, the four control-message
builders produce exactly the spec's templates: bulk subscribe is
`{type: market, assets_ids: [keys]}` on the market channel and
`{auth, type: user, markets: [keys]}` on the user channel; dynamic subscribe
adds `operation: subscribe` (with `auth` only on the user channel); dynamic
unsubscribe carries only the key-list field and `operation: unsubscribe`; no
extra fields in any of them. -/
theorem c8_message_templates (a : Option PolymarketWebSocketAuth) (cap : Nat)
    (keys : List String) (key : String) :
    createSubscribeMarketChannelMsg keys = specBulkMarketMsg keys ∧
    createSubscribeUserChannelMsg ⟨PolymarketWebSocketChannel.USER, a, cap⟩ keys =
      specBulkUserMsg a keys ∧
    createDynamicSubscribeMsg ⟨PolymarketWebSocketChannel.MARKET, a, cap⟩ [key] =
      specDynSubscribeMarketMsg key ∧
    createDynamicSubscribeMsg ⟨PolymarketWebSocketChannel.USER, a, cap⟩ [key] =
      specDynSubscribeUserMsg a key ∧
    createDynamicUnsubscribeMsg ⟨PolymarketWebSocketChannel.MARKET, a, cap⟩ [key] =
      specDynUnsubscribeMarketMsg key ∧
    createDynamicUnsubscribeMsg ⟨PolymarketWebSocketChannel.USER, a, cap⟩ [key] =
      specDynUnsubscribeUserMsg key :=
  ⟨rfl, rfl, rfl, rfl, rfl, rfl⟩

/-- C10: `market_subscriptions` returns a copy of the subscription list exactly
when the channel kind is USER and the empty list when it is MARKET, while
`asset_subscriptions` does the reverse; both are total functions of the state
(no raise path exists in either). In the model a returned copy is the list
value itself. -/
theorem c10_legacy_accessors (a : Option PolymarketWebSocketAuth) (cap : Nat)
    (st : WsState) :
    marketSubscriptions ⟨PolymarketWebSocketChannel.USER, a, cap⟩ st = st.subscriptions ∧
    marketSubscriptions ⟨PolymarketWebSocketChannel.MARKET, a, cap⟩ st = [] ∧
    assetSubscriptions ⟨PolymarketWebSocketChannel.MARKET, a, cap⟩ st = st.subscriptions ∧
    assetSubscriptions ⟨PolymarketWebSocketChannel.USER, a, cap⟩ st = [] :=
  ⟨rfl, rfl, rfl, rfl⟩

/-- C1 (counterexample): the claim says `unsubscribe` on a zero-count key fails
with `NotSubscribedError`.  The source has no raise path (and no
`NotSubscribedError` exists anywhere in the codebase): on the initial state the
call returns normally, leaving the state unchanged, with only a logged warning
and no wire message of any kind. -/
theorem c1_counterexample :
    unsubscribe cfgM initState "k" =
      (initState, [WsEvent.logWarning "Cannot unsubscribe from k: not subscribed"]) := rfl

/-- C1 (amended): unsubscribing a key whose reference count is 0 does not raise;
it logs a "not subscribed" warning, sends no wire message, leaves the state
unchanged, and returns normally. -/
theorem c1_unsubscribe_zero_warns (cfg : WsConfig) (st : WsState) (k : String)
    (h : countOf st k = 0) :
    unsubscribe cfg st k =
      (st, [WsEvent.logWarning ("Cannot unsubscribe from " ++ k ++ ": not subscribed")]) :=
  unsubscribe_zero cfg st k h

theorem c1_witness :
    countOf initState "k" = 0 ∧
    unsubscribe cfgM initState "k" =
      (initState,
        [WsEvent.logWarning ("Cannot unsubscribe from " ++ "k" ++ ": not subscribed")]) :=
  ⟨rfl, c1_unsubscribe_zero_warns cfgM initState "k" rfl⟩

/-- C9: calling `unsubscribe` on a key with reference count 0 leaves the whole
coordinator state (counts, registry list, slot key lists, handles) unchanged,
emits no wire send, and returns normally. -/
theorem c9_unsubscribe_zero_noop (cfg : WsConfig) (st : WsState) (k : String)
    (h : countOf st k = 0) :
    (unsubscribe cfg st k).1 = st ∧
    ((unsubscribe cfg st k).2.filter isSentEv) = [] := by
  rw [unsubscribe_zero cfg st k h]
  exact ⟨rfl, rfl⟩

theorem c9_witness :
    countOf initState "x" = 0 ∧
    ((unsubscribe cfgM initState "x").1 = initState ∧
      ((unsubscribe cfgM initState "x").2.filter isSentEv) = []) :=
  ⟨rfl, c9_unsubscribe_zero_noop cfgM initState "x" rfl⟩

/-- C4 (counterexample): on the default market configuration, subscribe "A" and
then fully unsubscribe it: slot 0 is closed (empty key list, handle released),
but its entry remains in the pool; a later subscribe "B" is assigned to the
same slot id 0 and no fresh id is minted — the closed slot's id is reused, not
retired. -/
theorem c4_counterexample :
    (runOps cfgM initState [WsOp.sub "A", WsOp.unsub "A"]).clientSubs = [(0, [])] ∧
    (runOps cfgM initState [WsOp.sub "A", WsOp.unsub "A"]).clients = [(0, false)] ∧
    (runOps cfgM initState [WsOp.sub "A", WsOp.unsub "A", WsOp.sub "B"]).clientSubs =
      [(0, ["B"])] ∧
    (runOps cfgM initState [WsOp.sub "A", WsOp.unsub "A", WsOp.sub "B"]).nextClientId = 1 := by
  decide

/-- C4 (amended): after a slot's last key is removed and its connection
released, the slot's entry remains registered with an empty key list and its id
is not retired: the next new-key assignment selects that same slot id (first
fit) and mints no new id. -/
theorem c4_slot_reuse :
    (getClientIdForNewSubscription cfgM
      (runOps cfgM initState [WsOp.sub "A", WsOp.unsub "A"])).1 = 0 ∧
    (getClientIdForNewSubscription cfgM
      (runOps cfgM initState [WsOp.sub "A", WsOp.unsub "A"])).2.nextClientId = 1 := by
  decide

/-- C3 (counterexample): with configured capacity 0 the very first
add_subscription over-fills the freshly created slot (1 key > capacity 0), so
the claim's slot-capacity bound fails for that configuration. -/
theorem c3_counterexample :
    ¬ CapInv cfgM0.maxSubscriptionsPerConnection (addSubscription cfgM0 initState "A") := by
  intro hinv
  have h := hinv (0, ["A"]) (by decide)
  exact absurd h (by decide)

/-- C3 (amended, requires capacity ≥ 1): after every sequence of
add_subscription / subscribe / unsubscribe operations every slot's key list has
length at most the configured capacity, and whenever every existing slot is
full the assignment helper creates a brand-new slot (id `nextClientId`, fresh
empty key list) instead of over-filling an existing one. -/
theorem c3_capacity_invariant (cfg : WsConfig) (ops : List WsOp)
    (hcap : 1 ≤ cfg.maxSubscriptionsPerConnection) :
    CapInv cfg.maxSubscriptionsPerConnection (runOps cfg initState ops) ∧
    (∀ st : WsState,
      (∀ p ∈ st.clientSubs, ¬ p.2.length < cfg.maxSubscriptionsPerConnection) →
      (getClientIdForNewSubscription cfg st).1 = st.nextClientId ∧
      (getClientIdForNewSubscription cfg st).2.nextClientId = st.nextClientId + 1 ∧
      dictGet (getClientIdForNewSubscription cfg st).2.clientSubs st.nextClientId =
        some []) := by
  constructor
  · exact CapInv_runOps cfg initState ops hcap (CapInv_initState _) StInv_initState
  · intro st hfull
    have hnone : firstFit cfg.maxSubscriptionsPerConnection st.clientSubs = none :=
      (firstFit_eq_none_iff _ _).mpr hfull
    unfold getClientIdForNewSubscription
    rw [hnone]
    exact ⟨rfl, rfl, dictGet_dictSet_self _ _ _⟩

theorem c3_witness :
    (1 ≤ cfgM.maxSubscriptionsPerConnection) ∧
    CapInv cfgM.maxSubscriptionsPerConnection (runOps cfgM initState [WsOp.add "A"]) :=
  ⟨by decide, (c3_capacity_invariant cfgM [WsOp.add "A"] (by decide)).1⟩

/-- C5: after every sequence of add_subscription / subscribe / unsubscribe
operations, each key occurs in the coordinator's subscription list exactly once
when its reference count is positive and zero times when the count is zero
(hence membership iff count > 0), and its total number of occurrences across
all slots' key lists is likewise one iff the count is positive — i.e. a live
key sits in exactly one slot and a dead key in none. -/
theorem c5_registry_slot_invariant (cfg : WsConfig) (ops : List WsOp) (k : String) :
    occ k (runOps cfg initState ops).subscriptions =
      (if 0 < countOf (runOps cfg initState ops) k then 1 else 0) ∧
    sumOcc k (runOps cfg initState ops).clientSubs =
      (if 0 < countOf (runOps cfg initState ops) k then 1 else 0) := by
  obtain ⟨-, -, -, hS, hP⟩ := StInv_runOps cfg initState ops StInv_initState
  exact ⟨hS k, hP k⟩


/-! ### Lemmas about connect() and the loop over slots -/

theorem dictGet_self_of_nodup {κ α : Type} [DecidableEq κ]
    (l : List (κ × α)) (p : κ × α) (hnd : (keysOf l).Nodup) (hp : p ∈ l) :
    dictGet l p.1 = some p.2 := by
  induction l with
  | nil => simp at hp
  | cons q rest ih =>
    obtain ⟨kq, vq⟩ := q
    simp only [keysOf, List.map_cons, List.nodup_cons] at hnd
    rcases List.mem_cons.mp hp with hp | hp
    · rw [hp]
      simp
    · have hne : kq ≠ p.1 := by
        intro he
        apply hnd.1
        rw [he]
        exact List.mem_map_of_mem Prod.fst hp
      simp only [dictGet_cons, if_neg hne]
      exact ih hnd.2 hp

theorem connectClient_clientSubs (cfg : WsConfig) (st : WsState) (clientId : Nat) :
    (connectClient cfg st clientId).1.clientSubs = st.clientSubs := by
  rw [connectClient_state]
  by_cases h : (dictGet st.clientSubs clientId).getD [] = []
  · rw [if_pos h]
  · rw [if_neg h]

theorem connectClient_preserves_live (cfg : WsConfig) (st : WsState)
    (clientId c : Nat) (h : dictGet st.clients c = some true) :
    dictGet (connectClient cfg st clientId).1.clients c = some true := by
  rw [connectClient_state]
  by_cases he : (dictGet st.clientSubs clientId).getD [] = []
  · rw [if_pos he]
    exact h
  · rw [if_neg he]
    show dictGet (dictSet st.clients clientId true) c = some true
    by_cases hc : c = clientId
    · subst hc
      exact dictGet_dictSet_self _ _ _
    · rw [dictGet_dictSet_ne _ _ _ _ hc]
      exact h

theorem connectLoop_preserves_live (cfg : WsConfig) (l : List (Nat × List String))
    (st : WsState) (c : Nat) (h : dictGet st.clients c = some true) :
    dictGet (connectLoop cfg st l).1.clients c = some true := by
  induction l generalizing st with
  | nil => exact h
  | cons q rest ih =>
    obtain ⟨cid, subs⟩ := q
    by_cases hq : subs = []
    · simp only [connectLoop, if_pos hq]
      exact ih st h
    · simp only [connectLoop, if_neg hq]
      exact ih _ (connectClient_preserves_live cfg st cid c h)

theorem connectLoop_opens (cfg : WsConfig) (l : List (Nat × List String))
    (st : WsState) (hall : ∀ p ∈ l, dictGet st.clientSubs p.1 = some p.2) :
    ∀ p ∈ l, p.2 ≠ [] → dictGet (connectLoop cfg st l).1.clients p.1 = some true := by
  induction l generalizing st with
  | nil => intro p hp; simp at hp
  | cons q rest ih =>
    obtain ⟨cid, subs⟩ := q
    intro p hp hpne
    by_cases hq : subs = []
    · simp only [connectLoop, if_pos hq]
      rcases List.mem_cons.mp hp with hp | hp
      · exact absurd (by rw [hp]; exact hq) hpne
      · exact ih st (fun r hr => hall r (List.mem_cons_of_mem _ hr)) p hp hpne
    · simp only [connectLoop, if_neg hq]
      have hgetHead : dictGet st.clientSubs cid = some subs :=
        hall (cid, subs) (List.mem_cons_self _ _)
      have hne2 : (dictGet st.clientSubs cid).getD [] ≠ [] := by
        rw [hgetHead]
        simpa using hq
      have hsubsEq : (connectClient cfg st cid).1.clientSubs = st.clientSubs :=
        connectClient_clientSubs cfg st cid
      rcases List.mem_cons.mp hp with hp | hp
      · rw [hp]
        show dictGet (connectLoop cfg (connectClient cfg st cid).1 rest).1.clients cid = some true
        apply connectLoop_preserves_live
        rw [connectClient_state, if_neg hne2]
        exact dictGet_dictSet_self _ _ _
      · exact ih (connectClient cfg st cid).1
          (fun r hr => by rw [hsubsEq]; exact hall r (List.mem_cons_of_mem _ hr)) p hp hpne

/-- C7: `connect()` invoked with zero total subscriptions reports the condition
as a logged error and opens no connection (the state is returned unchanged);
otherwise it opens a connection for every slot with a non-empty key list that
has no live connection (such a slot's handle is live afterwards). -/
theorem c7_connect_behavior (cfg : WsConfig) (ops : List WsOp) (st : WsState)
    (hst : st = runOps cfg initState ops) :
    (st.subscriptions = [] →
      connectAll cfg st = (st, [WsEvent.logError "Cannot connect: no subscriptions"])) ∧
    (st.subscriptions ≠ [] →
      ∀ p ∈ st.clientSubs, p.2 ≠ [] → dictGet st.clients p.1 ≠ some true →
        dictGet (connectAll cfg st).1.clients p.1 = some true) := by
  constructor
  · intro hempty
    unfold connectAll
    rw [if_pos hempty]
  · intro hne p hp hpne _
    unfold connectAll
    rw [if_neg hne]
    have hpw : (keysOf st.clientSubs).Pairwise (· < ·) := by
      rw [hst]
      exact (StInv_runOps cfg initState ops StInv_initState).2.1
    have hnd : (keysOf st.clientSubs).Nodup := hpw.imp fun hab => Nat.ne_of_lt hab
    exact connectLoop_opens cfg st.clientSubs st
      (fun r hr => dictGet_self_of_nodup _ r hnd hr) p hp hpne

theorem c7_witness :
    ((runOps cfgM initState [WsOp.add "A"]).subscriptions ≠ []) ∧
    dictGet (connectAll cfgM (runOps cfgM initState [WsOp.add "A"])).1.clients 0 =
      some true :=
  ⟨by decide,
    (c7_connect_behavior cfgM [WsOp.add "A"] _ rfl).2 (by decide)
      (0, ["A"]) (by decide) (by decide) (by decide)⟩

/-- C6: for every reachable pool state, assigning a slot to a newly active key
(the shared 0-to-1 registration) selects the lowest-id slot whose key-list
length is strictly below capacity and appends the key to it (first-fit, no new
id minted); when no slot has spare capacity it creates a fresh slot under the
monotonically increasing `nextClientId` (an id larger than every existing
slot's), with the key as its only entry, and returns that id. -/
theorem c6_first_fit_assignment (cfg : WsConfig) (ops : List WsOp) (k : String)
    (st : WsState) (hst : st = runOps cfg initState ops) :
    ((∃ p ∈ st.clientSubs, p.2.length < cfg.maxSubscriptionsPerConnection) →
      (registerNewKey cfg st k).1 ∈ keysOf st.clientSubs ∧
      ((dictGet st.clientSubs (registerNewKey cfg st k).1).getD []).length <
        cfg.maxSubscriptionsPerConnection ∧
      (∀ p ∈ st.clientSubs, p.2.length < cfg.maxSubscriptionsPerConnection →
        (registerNewKey cfg st k).1 ≤ p.1) ∧
      (registerNewKey cfg st k).2.clientSubs =
        dictSet st.clientSubs (registerNewKey cfg st k).1
          (((dictGet st.clientSubs (registerNewKey cfg st k).1).getD []) ++ [k]) ∧
      (registerNewKey cfg st k).2.nextClientId = st.nextClientId) ∧
    ((∀ p ∈ st.clientSubs, ¬ p.2.length < cfg.maxSubscriptionsPerConnection) →
      (registerNewKey cfg st k).1 = st.nextClientId ∧
      (∀ c ∈ keysOf st.clientSubs, c < st.nextClientId) ∧
      (registerNewKey cfg st k).2.clientSubs =
        dictSet st.clientSubs st.nextClientId [k] ∧
      (registerNewKey cfg st k).2.nextClientId = st.nextClientId + 1) := by
  have hinv := StInv_runOps cfg initState ops StInv_initState
  rw [← hst] at hinv
  obtain ⟨-, hpw, hbound, -, -⟩ := hinv
  have hnd : (keysOf st.clientSubs).Nodup := hpw.imp fun hab => Nat.ne_of_lt hab
  constructor
  · intro hspare
    cases hff : firstFit cfg.maxSubscriptionsPerConnection st.clientSubs with
    | none =>
        exfalso
        obtain ⟨p, hp, hplen⟩ := hspare
        exact absurd hplen ((firstFit_eq_none_iff _ _).mp hff p hp)
    | some cid =>
        obtain ⟨v, hget, hlen⟩ := firstFit_some_get _ _ _ hnd hff
        rw [registerNewKey_found cfg st k cid hff]
        refine ⟨firstFit_mem _ _ _ hff, ?_, ?_, rfl, rfl⟩
        · rw [hget]
          simpa using hlen
        · exact firstFit_min _ _ _ hpw hff
  · intro hfull
    have hnone : firstFit cfg.maxSubscriptionsPerConnection st.clientSubs = none :=
      (firstFit_eq_none_iff _ _).mpr hfull
    rw [registerNewKey_fresh cfg st k hnone]
    exact ⟨rfl, hbound, rfl, rfl⟩

theorem c6_witness :
    (∃ p ∈ (runOps ⟨PolymarketWebSocketChannel.MARKET, none, 2⟩ initState
        [WsOp.add "A", WsOp.add "B", WsOp.add "C"]).clientSubs, p.2.length < 2) ∧
    (registerNewKey ⟨PolymarketWebSocketChannel.MARKET, none, 2⟩
      (runOps ⟨PolymarketWebSocketChannel.MARKET, none, 2⟩ initState
        [WsOp.add "A", WsOp.add "B", WsOp.add "C"]) "D").1 = 1 :=
  ⟨by decide,
    by
      have h := (c6_first_fit_assignment ⟨PolymarketWebSocketChannel.MARKET, none, 2⟩
        [WsOp.add "A", WsOp.add "B", WsOp.add "C"] "D" _ rfl).1 (by decide)
      have hmin := h.2.2.1 (1, ["C"]) (by decide) (by decide)
      have hmem := h.1
      revert hmem hmin
      decide⟩


/-! ### Counting wire messages in event lists -/

theorem wireSubCount_append (k : String) (l1 l2 : List WsEvent) :
    wireSubCount k (l1 ++ l2) = wireSubCount k l1 + wireSubCount k l2 := by
  unfold wireSubCount
  exact List.countP_append _ _ _

theorem wireUnsubCount_append (k : String) (l1 l2 : List WsEvent) :
    wireUnsubCount k (l1 ++ l2) = wireUnsubCount k l1 + wireUnsubCount k l2 := by
  unfold wireUnsubCount
  exact List.countP_append _ _ _

theorem counts_bulk (cfg : WsConfig) (j : Nat) (k : String) :
    wireSubCount k [WsEvent.sent j (bulkMsgFor cfg [k])] = 1 ∧
    wireUnsubCount k [WsEvent.sent j (bulkMsgFor cfg [k])] = 0 := by
  cases hch : cfg.channel <;>
    simp [wireSubCount, wireUnsubCount, bulkMsgFor, hch,
      createSubscribeUserChannelMsg, createSubscribeMarketChannelMsg,
      msgMentionsKey, isUnsubscribeMsg, List.countP_cons, List.any_cons]

theorem counts_dynUnsub (cfg : WsConfig) (j : Nat) (k : String) :
    wireSubCount k [WsEvent.sent j (createDynamicUnsubscribeMsg cfg [k])] = 0 ∧
    wireUnsubCount k [WsEvent.sent j (createDynamicUnsubscribeMsg cfg [k])] = 1 := by
  cases hch : cfg.channel <;>
    simp [wireSubCount, wireUnsubCount, createDynamicUnsubscribeMsg, hch,
      msgMentionsKey, isUnsubscribeMsg, List.countP_cons, List.any_cons]

theorem counts_warning (k s : String) :
    wireSubCount k [WsEvent.logWarning s] = 0 ∧
    wireUnsubCount k [WsEvent.logWarning s] = 0 := by
  simp [wireSubCount, wireUnsubCount, List.countP_cons]


/-! ### Single-key transitions between the two shapes -/

theorem countOf_idle (ids : List Nat) (next : Nat) (k : String) :
    countOf (idleState ids next) k = 0 := rfl

theorem countOf_active (k : String) (n j : Nat) (ids : List Nat) (next : Nat) :
    countOf (activeState k n j ids next) k = n := by
  simp [countOf, countD, activeState]

theorem unsubscribe_idle (cfg : WsConfig) (k : String) (ids : List Nat) (next : Nat) :
    unsubscribe cfg (idleState ids next) k =
      (idleState ids next,
        [WsEvent.logWarning ("Cannot unsubscribe from " ++ k ++ ": not subscribed")]) :=
  unsubscribe_zero cfg _ k rfl

theorem bumpCount_active (k : String) (n j : Nat) (ids : List Nat) (next : Nat) :
    bumpCount (activeState k n j ids next) k =
      (n, activeState k (n + 1) j ids next) := by
  unfold bumpCount
  simp [activeState, countOf, countD, dictSet]

theorem subscribe_active (cfg : WsConfig) (k : String) (n j : Nat) (ids : List Nat)
    (next : Nat) (hn : 1 ≤ n) (hj : j ∈ ids) :
    subscribe cfg (activeState k n j ids next) k =
      (activeState k (n + 1) j ids next, []) := by
  unfold subscribe
  rw [bumpCount_active]
  simp only
  rw [if_pos (by omega : 0 < n)]
  have hfc : getClientForSubscription (activeState k (n + 1) j ids next) k = some j := by
    unfold getClientForSubscription
    show firstContaining (ids.map fun i => (i, if i = j then [k] else [])) k = _
    rw [firstContaining_mapIds, if_pos hj]
  rw [hfc]
  simp only
  have hcl : dictGet (activeState k (n + 1) j ids next).clients j = some true := by
    show dictGet (ids.map fun i => (i, if i = j then true else false)) j = some true
    rw [dictGet_mapIds, if_pos hj, if_pos rfl]
  rw [if_neg (by
    rw [hcl]
    simp)]

theorem unsubscribe_active_dec (cfg : WsConfig) (k : String) (n j : Nat)
    (ids : List Nat) (next : Nat) (hn : 2 ≤ n) :
    unsubscribe cfg (activeState k n j ids next) k =
      (activeState k (n - 1) j ids next, []) := by
  have h := unsubscribe_dec cfg (activeState k n j ids next) k
    (by rw [countOf_active]; omega)
  rw [countOf_active] at h
  rw [h]
  suffices hsuf : dictSet (activeState k n j ids next).subscriptionCounts k (n - 1) =
      [(k, n - 1)] by
    unfold activeState at hsuf ⊢
    simp only at hsuf ⊢
    rw [hsuf]
  show dictSet [(k, n)] k (n - 1) = [(k, n - 1)]
  simp [dictSet]

theorem unsubscribe_active_one (cfg : WsConfig) (k : String) (j : Nat)
    (ids : List Nat) (next : Nat) (hj : j ∈ ids) (hnd : ids.Nodup) :
    unsubscribe cfg (activeState k 1 j ids next) k =
      (idleState ids next, [WsEvent.sent j (createDynamicUnsubscribeMsg cfg [k])]) := by
  have hc : (dictGet (activeState k 1 j ids next).subscriptionCounts k).getD 0 = 1 := by
    show (dictGet [(k, 1)] k).getD 0 = 1
    simp
  have hmem : k ∈ (activeState k 1 j ids next).subscriptions :=
    List.mem_singleton_self k
  have hgetj : dictGet (activeState k 1 j ids next).clientSubs j = some [k] := by
    show dictGet (ids.map fun i => (i, if i = j then [k] else [])) j = some [k]
    rw [dictGet_mapIds, if_pos hj, if_pos rfl]
  have hfc : getClientForSubscription
      { activeState k 1 j ids next with
        subscriptionCounts := dictPop (activeState k 1 j ids next).subscriptionCounts k } k =
      some j := by
    unfold getClientForSubscription
    show firstContaining (ids.map fun i => (i, if i = j then [k] else [])) k = _
    rw [firstContaining_mapIds, if_pos hj]
  simp only [unsubscribe, hc]
  rw [if_neg (by omega), if_neg (by omega)]
  simp only [if_pos hmem]
  rw [hfc]
  simp only [hgetj, Option.isSome_some, Option.getD_some, true_and,
    if_pos (List.mem_singleton_self k), dictGet_dictSet_self]
  have hrem : listRemove [k] k = [] := by simp [listRemove]
  simp only [hrem, eq_self_iff_true, if_true]
  have hcl : dictGet (activeState k 1 j ids next).clients j = some true := by
    show dictGet (ids.map fun i => (i, if i = j then true else false)) j = some true
    rw [dictGet_mapIds, if_pos hj, if_pos rfl]
  simp only [sendMsg, hcl]
  simp only [disconnectClient, hcl, dictGet_dictSet_self]
  rw [Prod.mk.injEq]
  constructor
  · show ({ subscriptions := listRemove (activeState k 1 j ids next).subscriptions k
            subscriptionCounts := dictPop (activeState k 1 j ids next).subscriptionCounts k
            clients := dictSet (activeState k 1 j ids next).clients j false
            clientSubs := dictSet (activeState k 1 j ids next).clientSubs j []
            isConnecting := (activeState k 1 j ids next).isConnecting
            nextClientId := (activeState k 1 j ids next).nextClientId } : WsState) =
      idleState ids next
    have e1 : listRemove (activeState k 1 j ids next).subscriptions k = [] := by
      show listRemove [k] k = []
      exact hrem
    have e2 : dictPop (activeState k 1 j ids next).subscriptionCounts k = [] := by
      show dictPop [(k, 1)] k = []
      simp [dictPop]
    have e3 : dictSet (activeState k 1 j ids next).clients j false =
        ids.map fun i => (i, false) := by
      show dictSet (ids.map fun i => (i, if i = j then true else false)) j false = _
      rw [dictSet_mapIds _ _ _ _ hnd hj]
      exact mapIds_congr ids _ _ fun i _ => by
        by_cases hij : i = j <;> simp [hij]
    have e4 : dictSet (activeState k 1 j ids next).clientSubs j [] =
        ids.map fun i => (i, ([] : List String)) := by
      show dictSet (ids.map fun i => (i, if i = j then [k] else [])) j [] = _
      rw [dictSet_mapIds _ _ _ _ hnd hj]
      exact mapIds_congr ids _ _ fun i _ => by
        by_cases hij : i = j <;> simp [hij]
    rw [e1, e2, e3, e4]
    rfl
  · rfl


theorem subscribe_idle_reuse (cfg : WsConfig) (k : String) (i0 : Nat)
    (rest : List Nat) (next : Nat)
    (hcap : 0 < cfg.maxSubscriptionsPerConnection)
    (hnd : (i0 :: rest).Nodup) :
    subscribe cfg (idleState (i0 :: rest) next) k =
      (activeState k 1 i0 (i0 :: rest) next,
        [WsEvent.sent i0 (bulkMsgFor cfg [k])]) := by
  have hj : i0 ∈ i0 :: rest := List.mem_cons_self i0 rest
  have hb : bumpCount (idleState (i0 :: rest) next) k =
      (0, { idleState (i0 :: rest) next with subscriptionCounts := [(k, 1)] }) := rfl
  have hff : firstFit cfg.maxSubscriptionsPerConnection
      ({ idleState (i0 :: rest) next with
          subscriptionCounts := [(k, 1)] }).clientSubs = some i0 := by
    show firstFit cfg.maxSubscriptionsPerConnection
      ((i0 :: rest).map fun i => (i, ([] : List String))) = some i0
    rw [List.map_cons]
    unfold firstFit
    rw [if_pos (by simpa using hcap)]
  unfold subscribe
  rw [hb]
  simp only
  rw [if_neg (by omega : ¬ 0 < 0)]
  rw [registerNewKey_found cfg _ k i0 hff]
  simp only
  have hget0 : dictGet ({ idleState (i0 :: rest) next with
      subscriptionCounts := [(k, 1)] }).clientSubs i0 = some [] := by
    show dictGet ((i0 :: rest).map fun i => (i, ([] : List String))) i0 = some []
    rw [dictGet_mapIds, if_pos hj]
  rw [hget0]
  simp only [Option.getD_some, List.nil_append]
  set stR : WsState :=
    { subscriptions := [k]
      subscriptionCounts := [(k, 1)]
      clients := (i0 :: rest).map fun i => (i, false)
      clientSubs := dictSet ((i0 :: rest).map fun i => (i, ([] : List String))) i0 [k]
      isConnecting := (i0 :: rest).map fun i => (i, false)
      nextClientId := next } with hstR
  have hsubsR : dictGet stR.clientSubs i0 = some [k] := by
    rw [hstR]
    exact dictGet_dictSet_self _ _ _
  have hconR : dictGet stR.isConnecting i0 = some false := by
    rw [hstR]
    show dictGet ((i0 :: rest).map fun i => (i, false)) i0 = some false
    rw [dictGet_mapIds, if_pos hj]
  have hclR : dictGet stR.clients i0 = some false := by
    rw [hstR]
    show dictGet ((i0 :: rest).map fun i => (i, false)) i0 = some false
    rw [dictGet_mapIds, if_pos hj]
  show (if dictGet stR.clients i0 ≠ some true then connectClient cfg stR i0
    else if (dictGet stR.isConnecting i0).getD false = true then (stR, [])
    else sendMsg stR i0 (createDynamicSubscribeMsg cfg [k])) = _
  rw [if_pos (by rw [hclR]; simp)]
  rw [connectClient_eq cfg stR i0 (by rw [hsubsR]; simp)]
  rw [hsubsR]
  simp only [Option.getD_some]
  rw [Prod.mk.injEq]
  constructor
  · have e3 : dictSet stR.clients i0 true =
        (i0 :: rest).map fun i => (i, if i = i0 then true else false) := by
      rw [hstR]
      show dictSet ((i0 :: rest).map fun i => (i, false)) i0 true = _
      rw [dictSet_mapIds _ _ _ _ hnd hj]
    have e4 : dictSet stR.isConnecting i0 false =
        (i0 :: rest).map fun i => (i, false) := by
      rw [hstR]
      show dictSet ((i0 :: rest).map fun i => (i, false)) i0 false = _
      rw [dictSet_mapIds _ _ _ _ hnd hj]
      exact mapIds_congr _ _ _ fun i _ => by
        by_cases hij : i = i0 <;> simp [hij]
    have e5 : stR.clientSubs =
        (i0 :: rest).map fun i => (i, if i = i0 then [k] else []) := by
      rw [hstR]
      show dictSet ((i0 :: rest).map fun i => (i, ([] : List String))) i0 [k] = _
      rw [dictSet_mapIds _ _ _ _ hnd hj]
    show ({ stR with
        clients := dictSet stR.clients i0 true
        isConnecting := dictSet stR.isConnecting i0 false } : WsState) =
      activeState k 1 i0 (i0 :: rest) next
    rw [e3, e4]
    unfold activeState
    simp only [WsState.mk.injEq, and_true, true_and, eq_self_iff_true]
    exact e5
  · rfl


theorem subscribe_idle_fresh (cfg : WsConfig) (k : String) (ids : List Nat)
    (next : Nat)
    (hnone : firstFit cfg.maxSubscriptionsPerConnection
      (ids.map fun i => (i, ([] : List String))) = none)
    (hbnd : ∀ i ∈ ids, i < next) :
    subscribe cfg (idleState ids next) k =
      (activeState k 1 next (ids ++ [next]) (next + 1),
        [WsEvent.sent next (bulkMsgFor cfg [k])]) := by
  have hfreshC : next ∉ ids := fun hc => absurd (hbnd next hc) (by omega)
  have hb : bumpCount (idleState ids next) k =
      (0, { idleState ids next with subscriptionCounts := [(k, 1)] }) := rfl
  have hff : firstFit cfg.maxSubscriptionsPerConnection
      ({ idleState ids next with subscriptionCounts := [(k, 1)] }).clientSubs = none :=
    hnone
  unfold subscribe
  rw [hb]
  simp only
  rw [if_neg (by omega : ¬ 0 < 0)]
  rw [registerNewKey_fresh cfg _ k hff]
  simp only
  set stR : WsState :=
    { subscriptions := [k]
      subscriptionCounts := [(k, 1)]
      clients := dictSet (ids.map fun i => (i, false)) next false
      clientSubs := dictSet (ids.map fun i => (i, ([] : List String))) next [k]
      isConnecting := dictSet (ids.map fun i => (i, false)) next false
      nextClientId := next + 1 } with hstR
  have hkeysB : keysOf (ids.map fun i => (i, false)) = ids := keysOf_mapIds ids _
  have hkeysS : keysOf (ids.map fun i => (i, ([] : List String))) = ids :=
    keysOf_mapIds ids _
  have hfreshB : next ∉ keysOf (ids.map fun i => (i, false)) := by
    rw [hkeysB]; exact hfreshC
  have hfreshS : next ∉ keysOf (ids.map fun i => (i, ([] : List String))) := by
    rw [hkeysS]; exact hfreshC
  have hsubsR : dictGet stR.clientSubs next = some [k] := by
    rw [hstR]
    exact dictGet_dictSet_self _ _ _
  have hconR : dictGet stR.isConnecting next = some false := by
    rw [hstR]
    exact dictGet_dictSet_self _ _ _
  have hclR : dictGet stR.clients next = some false := by
    rw [hstR]
    exact dictGet_dictSet_self _ _ _
  show (if dictGet stR.clients next ≠ some true then connectClient cfg stR next
    else if (dictGet stR.isConnecting next).getD false = true then (stR, [])
    else sendMsg stR next (createDynamicSubscribeMsg cfg [k])) = _
  rw [if_pos (by rw [hclR]; simp)]
  rw [connectClient_eq cfg stR next (by rw [hsubsR]; simp)]
  rw [hsubsR]
  simp only [Option.getD_some]
  rw [Prod.mk.injEq]
  constructor
  · have e3 : dictSet stR.clients next true =
        (ids ++ [next]).map fun i => (i, if i = next then true else false) := by
      rw [hstR]
      show dictSet (dictSet (ids.map fun i => (i, false)) next false) next true = _
      rw [dictSet_dictSet_same, dictSet_fresh _ _ _ hfreshB, List.map_append]
      rw [show ((ids.map fun i => (i, false)) : List (Nat × Bool)) =
          ids.map fun i => (i, if i = next then true else false) from
        mapIds_congr _ _ _ fun i hi => by
          simp [show i ≠ next from fun he => hfreshC (he ▸ hi)]]
      simp
    have e4 : dictSet stR.isConnecting next false =
        (ids ++ [next]).map fun i => (i, false) := by
      rw [hstR]
      show dictSet (dictSet (ids.map fun i => (i, false)) next false) next false = _
      rw [dictSet_dictSet_same, dictSet_fresh _ _ _ hfreshB, List.map_append]
      simp
    have e5 : stR.clientSubs =
        (ids ++ [next]).map fun i => (i, if i = next then [k] else []) := by
      rw [hstR]
      show dictSet (ids.map fun i => (i, ([] : List String))) next [k] = _
      rw [dictSet_fresh _ _ _ hfreshS, List.map_append]
      rw [show ((ids.map fun i => (i, ([] : List String)))) =
          ids.map fun i => (i, if i = next then [k] else []) from
        mapIds_congr _ _ _ fun i hi => by
          simp [show i ≠ next from fun he => hfreshC (he ▸ hi)]]
      simp
    show ({ stR with
        clients := dictSet stR.clients next true
        isConnecting := dictSet stR.isConnecting next false } : WsState) =
      activeState k 1 next (ids ++ [next]) (next + 1)
    rw [e3, e4]
    unfold activeState
    simp only [WsState.mk.injEq, and_true, true_and, eq_self_iff_true]
    exact e5
  · rfl


/-! ### Single-key step and run accounting -/

theorem ksub_step (cfg : WsConfig) (k : String) (st : WsState) (hsh : KShape k st) :
    KShape k (subscribe cfg st k).1 ∧
    countOf (subscribe cfg st k).1 k = countOf st k + 1 ∧
    wireSubCount k (subscribe cfg st k).2 + (if 0 < countOf st k then 1 else 0) =
      wireUnsubCount k (subscribe cfg st k).2 +
        (if 0 < countOf (subscribe cfg st k).1 k then 1 else 0) := by
  rcases hsh with ⟨ids, next, hnd, hbnd, rfl⟩ | ⟨n, j, ids, next, hn, hj, hnd, hbnd, rfl⟩
  · by_cases hcap : 0 < cfg.maxSubscriptionsPerConnection
    · cases ids with
      | nil =>
          rw [subscribe_idle_fresh cfg k [] next rfl (by simp)]
          refine ⟨Or.inr ⟨1, next, [next], next + 1, le_refl 1, by simp, by simp, by
            intro i hi
            rw [List.mem_singleton.mp hi]
            omega, by simp⟩, ?_, ?_⟩
          · rw [countOf_active, countOf_idle]
          · obtain ⟨hs, hu⟩ := counts_bulk cfg next k
            rw [hs, hu, countOf_active, countOf_idle]; simp
      | cons i0 rest =>
          rw [subscribe_idle_reuse cfg k i0 rest next hcap hnd]
          refine ⟨Or.inr ⟨1, i0, i0 :: rest, next, le_refl 1,
            List.mem_cons_self i0 rest, hnd, hbnd, rfl⟩, ?_, ?_⟩
          · rw [countOf_active, countOf_idle]
          · obtain ⟨hs, hu⟩ := counts_bulk cfg i0 k
            rw [hs, hu, countOf_active, countOf_idle]; simp
    · have hnone : firstFit cfg.maxSubscriptionsPerConnection
          (ids.map fun i => (i, ([] : List String))) = none := by
        rw [firstFit_eq_none_iff]
        intro p hp
        omega
      rw [subscribe_idle_fresh cfg k ids next hnone hbnd]
      refine ⟨Or.inr ⟨1, next, ids ++ [next], next + 1, le_refl 1, by simp, by
        simp only [List.nodup_append, List.nodup_cons, List.not_mem_nil,
          not_false_iff, List.nodup_nil, and_true, true_and]
        constructor
        · exact hnd
        · intro a ha hb
          rw [List.mem_singleton.mp hb] at ha
          exact absurd (hbnd next ha) (by omega), by
        intro i hi
        rcases List.mem_append.mp hi with hi | hi
        · exact Nat.lt_succ_of_lt (hbnd i hi)
        · rw [List.mem_singleton.mp hi]
          omega, by simp⟩, ?_, ?_⟩
      · rw [countOf_active, countOf_idle]
      · obtain ⟨hs, hu⟩ := counts_bulk cfg next k
        rw [hs, hu, countOf_active, countOf_idle]; simp
  · rw [subscribe_active cfg k n j ids next hn hj]
    refine ⟨Or.inr ⟨n + 1, j, ids, next, by omega, hj, hnd, hbnd, rfl⟩, ?_, ?_⟩
    · rw [countOf_active, countOf_active]
    · rw [countOf_active, countOf_active]
      simp only [wireSubCount, wireUnsubCount, List.countP_nil]
      rw [if_pos (by omega), if_pos (by omega)]

theorem kunsub_step (cfg : WsConfig) (k : String) (st : WsState) (hsh : KShape k st) :
    KShape k (unsubscribe cfg st k).1 ∧
    countOf (unsubscribe cfg st k).1 k = countOf st k - 1 ∧
    wireSubCount k (unsubscribe cfg st k).2 + (if 0 < countOf st k then 1 else 0) =
      wireUnsubCount k (unsubscribe cfg st k).2 +
        (if 0 < countOf (unsubscribe cfg st k).1 k then 1 else 0) := by
  rcases hsh with ⟨ids, next, hnd, hbnd, rfl⟩ | ⟨n, j, ids, next, hn, hj, hnd, hbnd, rfl⟩
  · rw [unsubscribe_idle cfg k ids next]
    refine ⟨Or.inl ⟨ids, next, hnd, hbnd, rfl⟩, ?_, ?_⟩
    · simp [countOf_idle]
    · obtain ⟨hs, hu⟩ := counts_warning k ("Cannot unsubscribe from " ++ k ++ ": not subscribed")
      rw [hs, hu]
  · by_cases h1 : n = 1
    · subst h1
      rw [unsubscribe_active_one cfg k j ids next hj hnd]
      refine ⟨Or.inl ⟨ids, next, hnd, hbnd, rfl⟩, ?_, ?_⟩
      · rw [countOf_idle, countOf_active]
      · obtain ⟨hs, hu⟩ := counts_dynUnsub cfg j k
        rw [hs, hu, countOf_idle, countOf_active]; simp
    · have h2 : 2 ≤ n := by omega
      rw [unsubscribe_active_dec cfg k n j ids next h2]
      refine ⟨Or.inr ⟨n - 1, j, ids, next, by omega, hj, hnd, hbnd, rfl⟩, ?_, ?_⟩
      · rw [countOf_active, countOf_active]
      · rw [countOf_active, countOf_active]
        simp only [wireSubCount, wireUnsubCount, List.countP_nil]
        rw [if_pos (by omega), if_pos (by omega)]

theorem runKey_balance (cfg : WsConfig) (k : String) (ops : List KOp) :
    ∀ st : WsState, KShape k st →
      KShape k (runKey cfg k st ops).1 ∧
      countOf (runKey cfg k st ops).1 k = clampNetFrom (countOf st k) ops ∧
      wireSubCount k (runKey cfg k st ops).2 + (if 0 < countOf st k then 1 else 0) =
        wireUnsubCount k (runKey cfg k st ops).2 +
          (if 0 < countOf (runKey cfg k st ops).1 k then 1 else 0) := by
  induction ops with
  | nil =>
      intro st hsh
      exact ⟨hsh, rfl, rfl⟩
  | cons op rest ih =>
      intro st hsh
      cases op with
      | sub =>
          obtain ⟨hsh1, hc1, hb1⟩ := ksub_step cfg k st hsh
          obtain ⟨hsh2, hc2, hb2⟩ := ih (subscribe cfg st k).1 hsh1
          simp only [runKey]
          refine ⟨hsh2, ?_, ?_⟩
          · rw [hc2, hc1]
            rfl
          · rw [wireSubCount_append, wireUnsubCount_append]
            omega
      | unsub =>
          obtain ⟨hsh1, hc1, hb1⟩ := kunsub_step cfg k st hsh
          obtain ⟨hsh2, hc2, hb2⟩ := ih (unsubscribe cfg st k).1 hsh1
          simp only [runKey]
          refine ⟨hsh2, ?_, ?_⟩
          · rw [hc2, hc1]
            rfl
          · rw [wireSubCount_append, wireUnsubCount_append]
            omega


theorem wfFrom_clamp (ops : List KOp) : ∀ c, wfFrom c ops →
    clampNetFrom c ops + numUnsubs ops = c + numSubs ops := by
  induction ops with
  | nil =>
      intro c _
      simp [clampNetFrom, numSubs, numUnsubs]
  | cons op rest ih =>
      intro c hwf
      cases op with
      | sub =>
          have h := ih (c + 1) hwf
          simp only [clampNetFrom, numSubs, numUnsubs] at h ⊢
          omega
      | unsub =>
          obtain ⟨hc, hwf2⟩ := hwf
          have h := ih (c - 1) hwf2
          simp only [clampNetFrom, numSubs, numUnsubs] at h ⊢
          omega

/-- C2 (counterexample): unsubscribe("k") on the fresh coordinator is a no-op
warning, and the following subscribe("k") sends one wire subscribe message
covering "k" (the bulk message at connection open).  The sequence has equally
many subscribes and unsubscribes, so the claim as stated requires the wire
difference to be 0, but it is 1 - 0 = 1. -/
theorem c2_counterexample :
    wireSubCount "k" (runKey cfgM "k" initState [KOp.unsub, KOp.sub]).2 = 1 ∧
    wireUnsubCount "k" (runKey cfgM "k" initState [KOp.unsub, KOp.sub]).2 = 0 ∧
    numSubs [KOp.unsub, KOp.sub] = numUnsubs [KOp.unsub, KOp.sub] ∧
    ¬ ((1 : Int) - 0 = if (0 : Int) < 1 - 1 then 1 else 0) := by
  refine ⟨by decide, by decide, by decide, by decide⟩

/-- C2 (amended, restricted to well-formed call sequences): for every key `k`
and every finite sequence of subscribe(k)/unsubscribe(k) calls in which no
unsubscribe is issued while the key's count is zero, (i) the number of wire
subscribe messages covering `k` (bulk or dynamic) minus the number of wire
unsubscribe messages for `k` equals 1 if the number of subscribes exceeds the
number of unsubscribes and 0 otherwise, and (ii) any single call in the
sequence that does not cross the 0-1 boundary — a subscribe issued at a
positive count, or an unsubscribe issued at a count other than 1 — sends no
wire message at all (in particular none for `k`): its event list contains no
send. -/
theorem c2_wire_balance (cfg : WsConfig) (k : String) (ops : List KOp)
    (hwf : wfFrom 0 ops) :
    (wireSubCount k (runKey cfg k initState ops).2 =
      wireUnsubCount k (runKey cfg k initState ops).2 +
        (if numUnsubs ops < numSubs ops then 1 else 0)) ∧
    (∀ pre op post, ops = pre ++ op :: post →
      (match op with
        | KOp.sub => countOf (runKey cfg k initState pre).1 k ≠ 0
        | KOp.unsub => countOf (runKey cfg k initState pre).1 k ≠ 1) →
      ((match op with
        | KOp.sub => subscribe cfg (runKey cfg k initState pre).1 k
        | KOp.unsub =>
            unsubscribe cfg (runKey cfg k initState pre).1 k).2.filter isSentEv) =
        []) := by
  have hsh : KShape k initState := Or.inl ⟨[], 0, List.nodup_nil, by simp, rfl⟩
  constructor
  · obtain ⟨-, hc, hb⟩ := runKey_balance cfg k ops initState hsh
    have hclamp := wfFrom_clamp ops 0 hwf
    have hc0 : countOf initState k = 0 := rfl
    rw [hc0] at hc hb
    rw [if_neg (by omega : ¬ 0 < 0)] at hb
    rw [hc] at hb
    by_cases hpos : numUnsubs ops < numSubs ops
    · rw [if_pos hpos]
      rw [if_pos (by omega)] at hb
      omega
    · rw [if_neg hpos]
      rw [if_neg (by omega)] at hb
      omega
  · intro pre op post heq hnc
    obtain ⟨hshPre, -, -⟩ := runKey_balance cfg k pre initState hsh
    cases op with
    | sub =>
        dsimp only
        dsimp only at hnc
        rcases hshPre with ⟨ids, next, hnd, hbnd, hidle⟩ |
          ⟨n, j, ids, next, hn, hj, hnd, hbnd, hact⟩
        · exfalso
          apply hnc
          rw [hidle]
          exact countOf_idle ids next k
        · rw [hact, subscribe_active cfg k n j ids next hn hj]
          rfl
    | unsub =>
        dsimp only
        dsimp only at hnc
        rcases hshPre with ⟨ids, next, hnd, hbnd, hidle⟩ |
          ⟨n, j, ids, next, hn, hj, hnd, hbnd, hact⟩
        · rw [hidle, unsubscribe_idle cfg k ids next]
          rfl
        · have hn2 : 2 ≤ n := by
            rw [hact, countOf_active] at hnc
            omega
          rw [hact, unsubscribe_active_dec cfg k n j ids next hn2]
          rfl

theorem c2_witness :
    wfFrom 0 [KOp.sub, KOp.sub, KOp.unsub] ∧
    (wireSubCount "X" (runKey cfgM "X" initState [KOp.sub, KOp.sub, KOp.unsub]).2 =
      wireUnsubCount "X" (runKey cfgM "X" initState [KOp.sub, KOp.sub, KOp.unsub]).2 +
        (if numUnsubs [KOp.sub, KOp.sub, KOp.unsub] <
            numSubs [KOp.sub, KOp.sub, KOp.unsub] then 1 else 0)) ∧
    ((subscribe cfgM (runKey cfgM "X" initState [KOp.sub]).1 "X").2.filter isSentEv = []) :=
  ⟨⟨by omega, trivial⟩,
    (c2_wire_balance cfgM "X" [KOp.sub, KOp.sub, KOp.unsub] ⟨by omega, trivial⟩).1,
    (c2_wire_balance cfgM "X" [KOp.sub, KOp.sub, KOp.unsub] ⟨by omega, trivial⟩).2
      [KOp.sub] KOp.sub [KOp.unsub] rfl (by decide)⟩

end PolymarketWs
